import Mathlib

/-!
# Verification of the CDT-FEEDBACK server (`src/server/index.js`)

A shallow embedding of the Express route handlers of the anonymous feedback
portal.  The two persisted JSON files (`feedback.json`, `categories.json`)
become the two fields of `ServerState`; every handler that writes a file
returns the new state together with its HTTP response, and handlers that
return before the final `writeFeedback`/`writeCategories` call leave the
state unchanged, exactly as the JavaScript leaves the files unchanged.

Modelling conventions (documented once here):
* `timestamp` fields are epoch milliseconds (`Nat`).  The code stores
  `new Date().toISOString()` and compares via `new Date(s)`; for the
  timestamps the server itself writes this round-trips order-isomorphically,
  so `≤` on milliseconds is the comparison the code performs.
* Absent JSON body fields (`undefined` after destructuring) are `none`.
  JavaScript's falsiness test `!x` on a string field is `none` or `some ""`;
  the `rating` field of `POST /api/feedback` is a JSON number or string
  (`RatingField`), whose falsy values are `none`, `some (.num 0)` and
  `some (.str "")`.
* `String.length` counts Unicode code points where JavaScript counts UTF-16
  units; the two agree on every string this development evaluates (all are
  in the Basic Multilingual Plane).
* `crypto.createHash('sha256').update(s).digest('hex')` is `sha256hex`,
  a full executable SHA-256 over the UTF-8 bytes of `s`.
-/

/-! ## SHA-256 (crypto.createHash('sha256') … digest('hex')) -/

/-- Truncate to a 32-bit word. -/
def w32 (n : Nat) : Nat := n % 4294967296

/-- Right rotation of a 32-bit word. -/
def rotr (k x : Nat) : Nat := w32 ((x <<< (32 - k)) ||| (x >>> k))

def bigSigma0 (x : Nat) : Nat := rotr 2 x ^^^ (rotr 13 x ^^^ rotr 22 x)
def bigSigma1 (x : Nat) : Nat := rotr 6 x ^^^ (rotr 11 x ^^^ rotr 25 x)
def smallSigma0 (x : Nat) : Nat := rotr 7 x ^^^ (rotr 18 x ^^^ (x >>> 3))
def smallSigma1 (x : Nat) : Nat := rotr 17 x ^^^ (rotr 19 x ^^^ (x >>> 10))

/-- The 64 SHA-256 round constants (decimal). -/
def sha256K : List Nat :=
  [1116352408, 1899447441, 3049323471, 3921009573,
   961987163, 1508970993, 2453635748, 2870763221,
   3624381080, 310598401, 607225278, 1426881987,
   1925078388, 2162078206, 2614888103, 3248222580,
   3835390401, 4022224774, 264347078, 604807628,
   770255983, 1249150122, 1555081692, 1996064986,
   2554220882, 2821834349, 2952996808, 3210313671,
   3336571891, 3584528711, 113926993, 338241895,
   666307205, 773529912, 1294757372, 1396182291,
   1695183700, 1986661051, 2177026350, 2456956037,
   2730485921, 2820302411, 3259730800, 3345764771,
   3516065817, 3600352804, 4094571909, 275423344,
   430227734, 506948616, 659060556, 883997877,
   958139571, 1322822218, 1537002063, 1747873779,
   1955562222, 2024104815, 2227730452, 2361852424,
   2428436474, 2756734187, 3204031479, 3329325298]

/-- The initial SHA-256 hash state (decimal). -/
def sha256H0 : List Nat :=
  [1779033703, 3144134277, 1013904242, 2773480762,
   1359893119, 2600822924, 528734635, 1541459225]

/-- `k` bytes of `n`, big-endian. -/
def beBytes (k n : Nat) : List Nat :=
  (List.range k).map (fun i => (n >>> (8 * (k - 1 - i))) % 256)

/-- SHA-256 padding of a byte string. -/
def sha256Pad (msg : List Nat) : List Nat :=
  let len := msg.length
  let zeros := (119 - (len % 64)) % 64
  msg ++ [128] ++ List.replicate zeros 0 ++ beBytes 8 (8 * len)

/-- Split into 64-byte blocks (fuelled; the input length is the fuel). -/
def blocks64Aux : Nat → List Nat → List (List Nat)
  | _, [] => []
  | 0, _ => []
  | fuel + 1, l => l.take 64 :: blocks64Aux fuel (l.drop 64)

def blocks64 (l : List Nat) : List (List Nat) := blocks64Aux l.length l

/-- Big-endian 32-bit words from bytes. -/
def toWords : List Nat → List Nat
  | a :: b :: c :: d :: rest =>
      ((a <<< 24) ||| (b <<< 16) ||| (c <<< 8) ||| d) :: toWords rest
  | _ => []

/-- One message-schedule extension step: append word `i` (= current length). -/
def schedStep (ws : List Nat) : List Nat :=
  let i := ws.length
  ws ++ [w32 (smallSigma1 (ws.getD (i - 2) 0) + ws.getD (i - 7) 0 +
              smallSigma0 (ws.getD (i - 15) 0) + ws.getD (i - 16) 0)]

/-- The 64-word message schedule of one block. -/
def schedule (w16 : List Nat) : List Nat := schedStep^[48] w16

/-- One compression round; the state is the 8-word list `[a,…,h]`. -/
def sha256Round (st : List Nat) (kw : Nat × Nat) : List Nat :=
  let a := st.getD 0 0
  let b := st.getD 1 0
  let c := st.getD 2 0
  let d := st.getD 3 0
  let e := st.getD 4 0
  let f := st.getD 5 0
  let g := st.getD 6 0
  let h := st.getD 7 0
  let t1 := w32 (h + bigSigma1 e + ((e &&& f) ^^^ ((e ^^^ 4294967295) &&& g)) +
                 kw.1 + kw.2)
  let t2 := w32 (bigSigma0 a + ((a &&& b) ^^^ ((a &&& c) ^^^ (b &&& c))))
  [w32 (t1 + t2), a, b, c, w32 (d + t1), e, f, g]

/-- Compress one 64-byte block into the running hash. -/
def sha256Block (h : List Nat) (block : List Nat) : List Nat :=
  let ws := schedule (toWords block)
  let st := (sha256K.zip ws).foldl sha256Round h
  (h.zip st).map (fun p => w32 (p.1 + p.2))

def hexDigit (n : Nat) : Char :=
  "0123456789abcdef".toList.getD n '0'

/-- Lowercase hex of a 32-bit word. -/
def hex8 (n : Nat) : String :=
  String.mk ((List.range 8).map (fun i => hexDigit ((n >>> (4 * (7 - i))) &&& 15)))

/-- The UTF-8 bytes of a string, as naturals. -/
def strBytes (s : String) : List Nat := s.toUTF8.toList.map (fun b => b.toNat)

/-- SHA-256 hex digest of a string, as `digest('hex')` produces it. -/
def sha256hex (s : String) : String :=
  let final := (blocks64 (sha256Pad (strBytes s))).foldl sha256Block sha256H0
  String.join (final.map hex8)

/-! ## Data model -/

/-- A category record of `categories.json`. -/
structure Category where
  id : String
  name : String
  description : String
deriving DecidableEq, Repr

/-- A feedback record of `feedback.json`.  `timestamp` is epoch ms.
`rating` holds what the handler stores, `parseInt(rating)`: `none` models
`NaN` (serialized as `null` by `JSON.stringify`). -/
structure FeedbackEntry where
  feedback_id : String
  category : String
  rating : Option Int
  comment : String
  status : String
  admin_note : String
  timestamp : Nat
  hash : String
deriving DecidableEq, Repr

/-- The persisted state: the contents of the two JSON files. -/
structure ServerState where
  feedback : List FeedbackEntry
  categories : List Category
deriving DecidableEq, Repr

/-- The seeded initial state: empty feedback file, default category. -/
def initState : ServerState :=
  { feedback := []
    categories := [{ id := "general", name := "General",
                     description := "General feedback" }] }

/-- `hashIdentifier(req)`: sha256 hex of user-agent (defaulting to `''`)
concatenated with `Date.now().toString()`. -/
def hashIdentifier (userAgent : Option String) (now : Nat) : String :=
  sha256hex ((userAgent.getD "") ++ toString now)

/-! ## POST /api/feedback -/

/-- `parseInt` (radix 10): leading whitespace skipped, optional sign,
longest digit run; `none` is `NaN`. -/
def parseIntJS (s : String) : Option Int :=
  let l := s.toList.dropWhile (fun c => c = ' ' ∨ c = '\t' ∨ c = '\n' ∨ c = '\r')
  match l with
  | '-' :: rest => (leadingDigits rest).map (fun n => -(n : Int))
  | '+' :: rest => (leadingDigits rest).map (fun n => (n : Int))
  | rest => (leadingDigits rest).map (fun n => (n : Int))
where
  leadingDigits (l : List Char) : Option Nat :=
    let ds := l.takeWhile Char.isDigit
    if ds.isEmpty then none
    else some (ds.foldl (fun acc c => acc * 10 + (c.toNat - 48)) 0)

/-- `ToNumber` on a string (the coercion behind `rating < 1`): whitespace
trimmed on both sides, the empty string is 0, otherwise an optional sign
and decimal digits that must consume the whole string; `none` is `NaN`
(so e.g. `"12abc"` is `NaN`, unlike `parseInt`).  Fractional, exponent
and `0x` forms are outside the inputs this development evaluates. -/
def toNumberJS (s : String) : Option Int :=
  let ws := fun (c : Char) => c = ' ' ∨ c = '\t' ∨ c = '\n' ∨ c = '\r'
  let l := s.toList.dropWhile ws
  let l := (l.reverse.dropWhile ws).reverse
  match l with
  | [] => some 0
  | '-' :: rest =>
    if rest.isEmpty ∨ ¬ rest.all Char.isDigit then none
    else some (-(digitsVal rest : Int))
  | '+' :: rest =>
    if rest.isEmpty ∨ ¬ rest.all Char.isDigit then none
    else some ((digitsVal rest : Int))
  | rest =>
    if ¬ rest.all Char.isDigit then none
    else some ((digitsVal rest : Int))
where
  digitsVal (l : List Char) : Nat :=
    l.foldl (fun acc c => acc * 10 + (c.toNat - 48)) 0

/-- The JSON `rating` value of `POST /api/feedback`: a number or a string
(the handler itself anticipates strings via `parseInt`). -/
inductive RatingField where
  | num (n : Int)
  | str (s : String)
deriving DecidableEq, Repr

/-- `!rating`. -/
def ratingFalsy : Option RatingField → Bool
  | none => true
  | some (.num n) => n = 0
  | some (.str s) => s = ""

/-- The numeric coercion the comparisons `rating < 1 || rating > 5`
apply. -/
def ratingToNumber : RatingField → Option Int
  | .num n => some n
  | .str s => toNumberJS s

/-- `rating < 1 || rating > 5`: a `NaN` coercion compares false on both
sides, so it passes the check. -/
def ratingOutOfRange (r : RatingField) : Bool :=
  match ratingToNumber r with
  | some v => v < 1 ∨ v > 5
  | none => false

def ratingBoundsBad : Option RatingField → Bool
  | some r => ratingOutOfRange r
  | none => false

/-- `parseInt(rating)`, the value actually stored: `parseInt` of an
integer JSON number is itself; of a string, the leading-digits parse. -/
def ratingParseInt : RatingField → Option Int
  | .num n => some n
  | .str s => parseIntJS s

def ratingStored : Option RatingField → Option Int
  | some r => ratingParseInt r
  | none => none

/-- The JSON body of `POST /api/feedback` after destructuring; a missing
field is `none`. -/
structure PostFeedbackBody where
  category : Option String
  rating : Option RatingField
  comment : Option String
deriving DecidableEq, Repr

inductive PostFeedbackResp where
  /-- any of the three 400 validation exits -/
  | badRequest (msg : String)
  /-- 201 with the new feedback_id -/
  | created (feedback_id : String)
deriving DecidableEq, Repr

def PostFeedbackResp.code : PostFeedbackResp → Nat
  | .badRequest _ => 400
  | .created _ => 201

/-- `toLowerCase()`: character-wise ASCII lowercasing.  (`String.toLower`
is definitionally opaque to the kernel; the strings the server compares are
ASCII, for which JavaScript `toLowerCase` is exactly this map.) -/
def asciiLower (s : String) : String := String.mk (s.toList.map Char.toLower)

/-- The `categoryId` resolution of the handler: first lookup by `id`, then
by case-insensitive `name`; `none` means the 400 "Invalid category" exit. -/
def resolveCategory (categories : List Category) (category : String) :
    Option String :=
  match categories.find? (fun c => c.id = category) with
  | some byId => some byId.id
  | none =>
    match categories.find? (fun c => asciiLower c.name = asciiLower category) with
    | some byName => some byName.id
    | none => none

/-- `app.post('/api/feedback')`.  `newId` stands for `crypto.randomUUID()`,
`now` for the current time (used both for `timestamp` and inside
`hashIdentifier`). -/
def postFeedback (body : PostFeedbackBody) (userAgent : Option String)
    (now : Nat) (newId : String) (st : ServerState) :
    PostFeedbackResp × ServerState :=
  let category := body.category.getD ""
  let comment := body.comment.getD ""
  if category = "" ∨ ratingFalsy body.rating ∨ comment = "" then
    (.badRequest "All fields are required", st)
  else if comment.length < 5 then
    (.badRequest "Comment must be at least 5 characters long", st)
  else if ratingBoundsBad body.rating then
    (.badRequest "Rating must be between 1 and 5", st)
  else
    match resolveCategory st.categories category with
    | none => (.badRequest "Invalid category", st)
    | some categoryId =>
      let newFeedback : FeedbackEntry :=
        { feedback_id := newId
          category := categoryId
          rating := ratingStored body.rating
          comment := comment
          status := "open"
          admin_note := ""
          timestamp := now
          hash := hashIdentifier userAgent now }
      (.created newId, { st with feedback := st.feedback ++ [newFeedback] })

/-! ## DELETE /api/admin/categories/:id -/

inductive DeleteCategoryResp where
  | unauthorized      -- 401
  | notFound          -- 404
  | inUse             -- 400 "Cannot delete category in use by feedback"
  | success           -- 200 { success: true }
deriving DecidableEq, Repr

def DeleteCategoryResp.code : DeleteCategoryResp → Nat
  | .unauthorized => 401
  | .notFound => 404
  | .inUse => 400
  | .success => 200

/-- `app.delete('/api/admin/categories/:id')`. -/
def deleteCategory (isAdmin : Bool) (id : String) (st : ServerState) :
    DeleteCategoryResp × ServerState :=
  if ¬ isAdmin then (.unauthorized, st)
  else if ¬ st.categories.any (fun c => c.id = id) then (.notFound, st)
  else if st.feedback.any (fun f => f.category = id) then (.inUse, st)
  else (.success, { st with categories := st.categories.filter (fun c => c.id ≠ id) })

/-! ## PUT /api/admin/feedback/:id -/

/-- The JSON body of `PUT /api/admin/feedback/:id`; a field absent from the
request (`undefined`) is `none`. -/
structure PutFeedbackBody where
  status : Option String
  admin_note : Option String
  category : Option String
deriving DecidableEq, Repr

inductive PutFeedbackResp where
  | unauthorized                  -- 401
  | notFound                      -- 404
  | invalidStatus                 -- 400 "Invalid status"
  | invalidCategory               -- 400 "Invalid category"
  | ok (entry : FeedbackEntry)    -- 200 with the updated entry
deriving DecidableEq, Repr

def PutFeedbackResp.code : PutFeedbackResp → Nat
  | .unauthorized => 401
  | .notFound => 404
  | .invalidStatus => 400
  | .invalidCategory => 400
  | .ok _ => 200

/-- The in-place mutation of `feedback[idx]`: each supplied field
overwrites, each absent field is kept. -/
def applyPut (b : PutFeedbackBody) (f : FeedbackEntry) : FeedbackEntry :=
  let f1 := match b.status with
    | some s => { f with status := s }
    | none => f
  let f2 := match b.admin_note with
    | some n => { f1 with admin_note := n }
    | none => f1
  match b.category with
  | some c => { f2 with category := c }
  | none => f2

/-- `findIndex` + in-place update of the first entry whose `feedback_id`
matches, returning the updated entry and the updated list (`none` = 404). -/
def putUpdate (b : PutFeedbackBody) (id : String) :
    List FeedbackEntry → Option (FeedbackEntry × List FeedbackEntry)
  | [] => none
  | f :: rest =>
    if f.feedback_id = id then some (applyPut b f, applyPut b f :: rest)
    else
      match putUpdate b id rest with
      | none => none
      | some (e, rest') => some (e, f :: rest')

def statusAllowed (s : String) : Bool :=
  s = "open" ∨ s = "in_progress" ∨ s = "completed"

/-- `app.put('/api/admin/feedback/:id')`: 401, then 404, then the status
validation, then the category validation, and only then the single
`writeFeedback` call. -/
def putFeedback (isAdmin : Bool) (id : String) (b : PutFeedbackBody)
    (st : ServerState) : PutFeedbackResp × ServerState :=
  if ¬ isAdmin then (.unauthorized, st)
  else
    match putUpdate b id st.feedback with
    | none => (.notFound, st)
    | some (e, feedback') =>
      if ∃ s, b.status = some s ∧ ¬ statusAllowed s then
        (.invalidStatus, st)
      else if ∃ c, b.category = some c ∧ ¬ st.categories.any (fun cat => cat.id = c) then
        (.invalidCategory, st)
      else
        (.ok e, { st with feedback := feedback' })

/-! ## DELETE /api/admin/feedback/:id and bulk delete -/

inductive DeleteFeedbackResp where
  | unauthorized          -- 401
  | notFound              -- 404
  | success (deleted : Nat)  -- 200 { success: true, deleted }
deriving DecidableEq, Repr

def DeleteFeedbackResp.code : DeleteFeedbackResp → Nat
  | .unauthorized => 401
  | .notFound => 404
  | .success _ => 200

/-- `app.delete('/api/admin/feedback/:id')`. -/
def deleteFeedback (isAdmin : Bool) (id : String) (st : ServerState) :
    DeleteFeedbackResp × ServerState :=
  if ¬ isAdmin then (.unauthorized, st)
  else if ¬ st.feedback.any (fun f => f.feedback_id = id) then (.notFound, st)
  else (.success 1, { st with feedback := st.feedback.filter (fun f => f.feedback_id ≠ id) })

inductive BulkDeleteResp where
  | unauthorized          -- 401
  | badRequest            -- 400 "ids array is required"
  | success (deleted : Nat)  -- 200 { success: true, deleted }
deriving DecidableEq, Repr

def BulkDeleteResp.code : BulkDeleteResp → Nat
  | .unauthorized => 401
  | .badRequest => 400
  | .success _ => 200

/-- `app.post('/api/admin/feedback/bulk-delete')`.  `ids = none` models a
body whose `ids` is missing or not an array (`!Array.isArray(ids)`). -/
def bulkDelete (isAdmin : Bool) (ids : Option (List String))
    (st : ServerState) : BulkDeleteResp × ServerState :=
  if ¬ isAdmin then (.unauthorized, st)
  else
    match ids with
    | none => (.badRequest, st)
    | some l =>
      if l.length = 0 then (.badRequest, st)
      else
        let before := st.feedback.length
        let updated := st.feedback.filter (fun f => ¬ l.contains f.feedback_id)
        (.success (before - updated.length), { st with feedback := updated })

/-! ## POST /api/admin/categories and PUT /api/admin/categories/:id -/

inductive PostCategoryResp where
  | unauthorized            -- 401
  | nameRequired            -- 400 "Name is required"
  | created (c : Category)  -- 201
deriving DecidableEq, Repr

def PostCategoryResp.code : PostCategoryResp → Nat
  | .unauthorized => 401
  | .nameRequired => 400
  | .created _ => 201

/-- `app.post('/api/admin/categories')`. -/
def postCategory (isAdmin : Bool) (name description : Option String)
    (newId : String) (st : ServerState) : PostCategoryResp × ServerState :=
  if ¬ isAdmin then (.unauthorized, st)
  else if name.getD "" = "" then (.nameRequired, st)
  else
    let newCategory : Category :=
      { id := newId, name := name.getD "", description := description.getD "" }
    (.created newCategory, { st with categories := st.categories ++ [newCategory] })

/-- The in-place mutation of `categories[idx]`: `name` only when truthy,
`description` whenever not `undefined`. -/
def applyCatPut (name description : Option String) (c : Category) : Category :=
  let c1 := match name with
    | some n => if n ≠ "" then { c with name := n } else c
    | none => c
  match description with
  | some d => { c1 with description := d }
  | none => c1

/-- `findIndex` + in-place update of the first category whose `id` matches. -/
def catUpdate (name description : Option String) (id : String) :
    List Category → Option (Category × List Category)
  | [] => none
  | c :: rest =>
    if c.id = id then
      some (applyCatPut name description c, applyCatPut name description c :: rest)
    else
      match catUpdate name description id rest with
      | none => none
      | some (e, rest') => some (e, c :: rest')

inductive PutCategoryResp where
  | unauthorized       -- 401
  | notFound           -- 404
  | ok (c : Category)  -- 200
deriving DecidableEq, Repr

def PutCategoryResp.code : PutCategoryResp → Nat
  | .unauthorized => 401
  | .notFound => 404
  | .ok _ => 200

/-- `app.put('/api/admin/categories/:id')`. -/
def putCategory (isAdmin : Bool) (id : String) (name description : Option String)
    (st : ServerState) : PutCategoryResp × ServerState :=
  if ¬ isAdmin then (.unauthorized, st)
  else
    match catUpdate name description id st.categories with
    | none => (.notFound, st)
    | some (c, categories') => (.ok c, { st with categories := categories' })

/-! ## The startup normalization pass -/

/-- One entry of `normalizeData`: remap a name-valued `category` to the id
found in the (insertion-order-last, as `Object.fromEntries` keeps the last
duplicate key) matching category, and default a falsy `status` to
`'open'`.  `admin_note` is always a string in this model, so the
`admin_note === undefined` branch has no effect. -/
def normalizeEntry (cats : List Category) (f : FeedbackEntry) : FeedbackEntry :=
  let f1 :=
    if ¬ cats.any (fun c => c.id = f.category) then
      match cats.reverse.find? (fun c => asciiLower c.name = asciiLower f.category) with
      | some c => { f with category := c.id }
      | none => f
    else f
  if f1.status = "" then { f1 with status := "open" } else f1

def normalizeData (st : ServerState) : ServerState :=
  { st with feedback := st.feedback.map (normalizeEntry st.categories) }

/-! ## GET /api/admin/feedback -/

/-- The query string of `GET /api/admin/feedback`; a parameter that is not
present is `none`.  `startDate`/`endDate` are modelled as the epoch
milliseconds `new Date(param)` parses them to (an absent parameter is
`none`; an unparsable date, which makes every comparison false, is out of
scope of the valid-date claims). -/
structure FeedbackQuery where
  category : Option String
  rating : Option String
  search : Option String
  startDate : Option Nat
  endDate : Option Nat
  status : Option String
deriving DecidableEq, Repr

/-- `hay.includes(needle)` on strings. -/
def containsSubstr (hay needle : String) : Bool :=
  hay.toList.tails.any (fun t => needle.toList.isPrefixOf t)

/-- `f.status || 'open'`. -/
def statusOrOpen (f : FeedbackEntry) : String :=
  if f.status = "" then "open" else f.status

/-- Apply an optional filter: `none` means the guard of that filter was
falsy and the list is passed through. -/
def condFilter (p : Option (FeedbackEntry → Bool)) (l : List FeedbackEntry) :
    List FeedbackEntry :=
  match p with
  | some pred => l.filter pred
  | none => l

/-- `if (category && category !== 'all') filter(f => f.category === category)` -/
def categoryPred (q : FeedbackQuery) : Option (FeedbackEntry → Bool) :=
  match q.category with
  | some c => if c ≠ "" ∧ c ≠ "all" then some (fun f => f.category = c) else none
  | none => none

/-- `if (rating && rating !== 'all') filter(f => f.rating === parseInt(rating))` -/
def ratingPred (q : FeedbackQuery) : Option (FeedbackEntry → Bool) :=
  match q.rating with
  | some r =>
    if r ≠ "" ∧ r ≠ "all" then
      some (fun f => match parseIntJS r with
        | some n => f.rating = some n
        | none => false)
    else none
  | none => none

/-- `if (status && status !== 'all') filter(f => (f.status || 'open') === status)` -/
def statusPred (q : FeedbackQuery) : Option (FeedbackEntry → Bool) :=
  match q.status with
  | some s => if s ≠ "" ∧ s ≠ "all" then some (fun f => statusOrOpen f = s) else none
  | none => none

/-- `if (startDate) filter(f => new Date(f.timestamp) >= new Date(startDate))` -/
def startDatePred (q : FeedbackQuery) : Option (FeedbackEntry → Bool) :=
  match q.startDate with
  | some d => some (fun f => d ≤ f.timestamp)
  | none => none

/-- `if (endDate) filter(f => new Date(f.timestamp) <= new Date(endDate))` -/
def endDatePred (q : FeedbackQuery) : Option (FeedbackEntry → Bool) :=
  match q.endDate with
  | some d => some (fun f => f.timestamp ≤ d)
  | none => none

/-- `if (search) filter(f => (f.comment && …includes(q)) || (f.admin_note && …includes(q)))` -/
def searchPred (q : FeedbackQuery) : Option (FeedbackEntry → Bool) :=
  match q.search with
  | some s =>
    if s ≠ "" then
      some (fun f => (f.comment ≠ "" ∧ containsSubstr (asciiLower f.comment) (asciiLower s)) ∨
                     (f.admin_note ≠ "" ∧ containsSubstr (asciiLower f.admin_note) (asciiLower s)))
    else none
  | none => none

/-- The sort comparator `(a, b) => new Date(b.timestamp) - new Date(a.timestamp)`:
newest first. -/
def tsDesc (a b : FeedbackEntry) : Prop := b.timestamp ≤ a.timestamp

instance : DecidableRel tsDesc := fun a b => Nat.decLe b.timestamp a.timestamp

instance : IsTotal FeedbackEntry tsDesc :=
  ⟨fun a b => Nat.le_total b.timestamp a.timestamp⟩

instance : IsTrans FeedbackEntry tsDesc :=
  ⟨fun _ _ _ h1 h2 => Nat.le_trans h2 h1⟩

inductive GetFeedbackResp where
  | unauthorized                       -- 401
  | ok (entries : List FeedbackEntry)  -- 200
deriving DecidableEq, Repr

/-- `app.get('/api/admin/feedback')`: the six conditional filters in the
source order, then the sort (newest first). -/
def getAdminFeedback (isAdmin : Bool) (q : FeedbackQuery) (st : ServerState) :
    GetFeedbackResp :=
  if ¬ isAdmin then .unauthorized
  else .ok (List.insertionSort tsDesc
    (condFilter (searchPred q) (condFilter (endDatePred q)
      (condFilter (startDatePred q) (condFilter (statusPred q)
        (condFilter (ratingPred q) (condFilter (categoryPred q) st.feedback)))))))

/-- Whether an optional filter passes an entry (`none` passes everything). -/
def optHolds (p : Option (FeedbackEntry → Bool)) (f : FeedbackEntry) : Bool :=
  match p with
  | some pred => pred f
  | none => true

/-- The conjunction of all supplied filters of a query. -/
def matchesQuery (q : FeedbackQuery) (f : FeedbackEntry) : Bool :=
  optHolds (categoryPred q) f && optHolds (ratingPred q) f &&
  optHolds (statusPred q) f && optHolds (startDatePred q) f &&
  optHolds (endDatePred q) f && optHolds (searchPred q) f

/-! ## GET /api/admin/analytics — the word-frequency summarizer -/

/-- A `\w` character: `[A-Za-z0-9_]`. -/
def isWordChar (c : Char) : Bool := c.isAlphanum ∨ c = '_'

/-- Maximal runs of word characters of a character list (the accumulator
holds the current run, reversed). -/
def wordRuns (acc : List Char) : List Char → List (List Char)
  | [] => if acc.isEmpty then [] else [acc.reverse]
  | c :: rest =>
    if isWordChar c then wordRuns (c :: acc) rest
    else if acc.isEmpty then wordRuns [] rest
    else acc.reverse :: wordRuns [] rest

/-- `s.match(/\b\w{4,}\b/g) || []`: the maximal word-character runs of
length at least 4. -/
def matchWords (s : String) : List String :=
  ((wordRuns [] s.toList).filter (fun r => 4 ≤ r.length)).map (fun r => String.mk r)

/-- `feedback.map(f => f.comment).join(' ').toLowerCase()`. -/
def allCommentsOf (fb : List FeedbackEntry) : String :=
  asciiLower (String.intercalate " " (fb.map (fun f => f.comment)))

/-- `acc[word] = (acc[word] || 0) + 1` on an association list in insertion
order. -/
def bump (w : String) : List (String × Nat) → List (String × Nat)
  | [] => [(w, 1)]
  | (x, n) :: rest => if x = w then (x, n + 1) :: rest else (x, n) :: bump w rest

/-- `words.reduce(…)` into the word-count table.  (JavaScript object keys:
integer-like keys would be enumerated first by `Object.entries`; the
insertion-order model only differs in the order of equal-count ties, which
no proved property depends on.) -/
def wordCount (ws : List String) : List (String × Nat) :=
  ws.foldl (fun acc w => bump w acc) []

/-- The comparator `([,a],[,b]) => b - a`: count descending. -/
def countDesc (a b : String × Nat) : Prop := b.2 ≤ a.2

instance : DecidableRel countDesc := fun a b => Nat.decLe b.2 a.2

instance : IsTotal (String × Nat) countDesc := ⟨fun a b => Nat.le_total b.2 a.2⟩

instance : IsTrans (String × Nat) countDesc :=
  ⟨fun _ _ _ h1 h2 => Nat.le_trans h2 h1⟩

/-- The `commonWords` field: sort by count descending, `slice(0, 10)`. -/
def commonWords (fb : List FeedbackEntry) : List (String × Nat) :=
  (List.insertionSort countDesc (wordCount (matchWords (allCommentsOf fb)))).take 10

/-- `app.get('/api/admin/analytics')`, restricted to the `commonWords`
field of its response (`none` = 401). -/
def getAnalyticsCommonWords (isAdmin : Bool) (st : ServerState) :
    Option (List (String × Nat)) :=
  if ¬ isAdmin then none
  else some (commonWords st.feedback)

/-! ## Reachable states -/

/-- One client request against the server (only the handlers that write a
file; read-only handlers do not change the state), plus the startup
normalization pass. -/
inductive Op where
  | post (body : PostFeedbackBody) (ua : Option String) (now : Nat) (newId : String)
  | putFb (isAdmin : Bool) (id : String) (b : PutFeedbackBody)
  | delFb (isAdmin : Bool) (id : String)
  | bulkDel (isAdmin : Bool) (ids : Option (List String))
  | postCat (isAdmin : Bool) (name description : Option String) (newId : String)
  | putCat (isAdmin : Bool) (id : String) (name description : Option String)
  | delCat (isAdmin : Bool) (id : String)
  | normalize

def applyOp (st : ServerState) : Op → ServerState
  | .post b ua now newId => (postFeedback b ua now newId st).2
  | .putFb a id b => (putFeedback a id b st).2
  | .delFb a id => (deleteFeedback a id st).2
  | .bulkDel a ids => (bulkDelete a ids st).2
  | .postCat a n d newId => (postCategory a n d newId st).2
  | .putCat a id n d => (putCategory a id n d st).2
  | .delCat a id => (deleteCategory a id st).2
  | .normalize => normalizeData st

/-- The state after a sequence of requests against the seeded initial
state. -/
def runOps (ops : List Op) : ServerState := ops.foldl applyOp initState

/-- Referential integrity: every feedback entry's category reference is the
id of some category on file. -/
def refIntegrity (st : ServerState) : Prop :=
  ∀ f ∈ st.feedback, ∃ c ∈ st.categories, c.id = f.category

/-- The three-value status invariant. -/
def statusOK (st : ServerState) : Prop :=
  ∀ f ∈ st.feedback,
    f.status = "open" ∨ f.status = "in_progress" ∨ f.status = "completed"

/-! ## Helper lemmas -/

theorem resolveCategory_mem {cats : List Category} {s cid : String}
    (h : resolveCategory cats s = some cid) : ∃ c ∈ cats, c.id = cid := by
  unfold resolveCategory at h
  cases hId : cats.find? (fun c => c.id = s) with
  | some byId =>
    rw [hId] at h
    exact ⟨byId, List.mem_of_find?_eq_some hId, Option.some.inj h⟩
  | none =>
    rw [hId] at h
    cases hName : cats.find? (fun c => asciiLower c.name = asciiLower s) with
    | some byName =>
      rw [hName] at h
      exact ⟨byName, List.mem_of_find?_eq_some hName, Option.some.inj h⟩
    | none => rw [hName] at h; cases h

theorem resolveCategory_of_id {cats : List Category} {s : String}
    (h : ∃ c ∈ cats, c.id = s) : resolveCategory cats s = some s := by
  unfold resolveCategory
  cases hId : cats.find? (fun c => c.id = s) with
  | some byId =>
    have := List.find?_some hId
    simp only [decide_eq_true_eq] at this
    simp [this]
  | none =>
    exfalso
    obtain ⟨c, hc, hcid⟩ := h
    rw [List.find?_eq_none] at hId
    exact hId c hc (by simp [hcid])

theorem resolveCategory_of_name {cats : List Category} {s : String} {c : Category}
    (hId : cats.find? (fun c => c.id = s) = none)
    (hName : cats.find? (fun c => asciiLower c.name = asciiLower s) = some c) :
    resolveCategory cats s = some c.id := by
  unfold resolveCategory
  rw [hId, hName]

/-! ## C1: the rating invariant is violated by the code -/

/-- Claim C1 fails on the code: validation and storage use two different
views of `rating`.  The bounds check `rating < 1 || rating > 5`
(index.js:245) applies ToNumber coercion, under which the string
`"12abc"` is `NaN` and both comparisons are false, so the request passes
every validation; the write then stores `parseInt("12abc") = 12`
(index.js:267).  Concretely, the request
`{category: "general", rating: "12abc", comment: "hello world"}` is
accepted with 201 and the stored entry carries rating 12, outside the
claimed [1,5] bound (and against the handler's own
"Rating must be between 1 and 5" message). -/
theorem postFeedback_rating_bypass :
    (postFeedback ⟨some "general", some (.str "12abc"), some "hello world"⟩
        none 1 "f1" initState).1 = .created "f1" ∧
    (postFeedback ⟨some "general", some (.str "12abc"), some "hello world"⟩
        none 1 "f1" initState).2.feedback.map FeedbackEntry.rating = [some 12] ∧
    ¬ ((1 : Int) ≤ 12 ∧ (12 : Int) ≤ 5) :=
  ⟨rfl, rfl, by decide⟩

/-- On the 201 path, `POST /api/feedback` appends exactly one entry, built
from the resolved category id, the parsed rating, the comment, status
`'open'`, empty admin note, the current time and `hashIdentifier`. -/
theorem postFeedback_created (b : PostFeedbackBody) (ua : Option String)
    (now : Nat) (newId : String) (st : ServerState) (r : String)
    (st' : ServerState) (h : postFeedback b ua now newId st = (.created r, st')) :
    r = newId ∧ st'.categories = st.categories ∧
    ∃ cid, resolveCategory st.categories (b.category.getD "") = some cid ∧
      st' = { st with feedback := st.feedback ++
        [⟨newId, cid, ratingStored b.rating, b.comment.getD "", "open", "", now,
          hashIdentifier ua now⟩] } := by
  simp only [postFeedback] at h
  split_ifs at h with h1 h2 h3
  · injection h with hr _; exact nomatch hr
  · injection h with hr _; exact nomatch hr
  · injection h with hr _; exact nomatch hr
  · cases hres : resolveCategory st.categories (b.category.getD "") with
    | none =>
      rw [hres] at h
      injection h with hr _; exact nomatch hr
    | some cid =>
      rw [hres] at h
      injection h with hr hs
      injection hr with hr
      exact ⟨hr.symm, by rw [← hs], cid, rfl, hs.symm⟩

/-! ## C3: the per-submission hash (corrected) -/

/-- Claim C3 is false as stated: two accepted submissions from the same
client (same user-agent) made in the same millisecond store the SAME hash,
not distinct ones.  Concretely, two submissions with user-agent
`Mozilla/5.0` at time 1700000000000 are both accepted and the two stored
entries (distinct `feedback_id`s) carry one and the same hash value. -/
theorem hash_not_distinct_counterexample :
    (postFeedback ⟨some "general", some (.num 5), some "hello world"⟩ (some "Mozilla/5.0")
        1700000000000 "id1" initState).1 = .created "id1" ∧
    (postFeedback ⟨some "general", some (.num 5), some "hello world"⟩ (some "Mozilla/5.0")
        1700000000000 "id2"
        (postFeedback ⟨some "general", some (.num 5), some "hello world"⟩ (some "Mozilla/5.0")
          1700000000000 "id1" initState).2).1 = .created "id2" ∧
    ((postFeedback ⟨some "general", some (.num 5), some "hello world"⟩ (some "Mozilla/5.0")
        1700000000000 "id2"
        (postFeedback ⟨some "general", some (.num 5), some "hello world"⟩ (some "Mozilla/5.0")
          1700000000000 "id1" initState).2).2.feedback.map FeedbackEntry.feedback_id
      = ["id1", "id2"]) ∧
    ((postFeedback ⟨some "general", some (.num 5), some "hello world"⟩ (some "Mozilla/5.0")
        1700000000000 "id2"
        (postFeedback ⟨some "general", some (.num 5), some "hello world"⟩ (some "Mozilla/5.0")
          1700000000000 "id1" initState).2).2.feedback.map FeedbackEntry.hash
      = [hashIdentifier (some "Mozilla/5.0") 1700000000000,
         hashIdentifier (some "Mozilla/5.0") 1700000000000]) ∧
    "id1" ≠ "id2" :=
  ⟨rfl, rfl, rfl, rfl, by decide⟩

/-- Claim C3 (amended): the stored hash is recomputed per submission as a
deterministic function of the user-agent plus the current time
(`sha256hex(userAgent + Date.now())`), carrying no other session state;
consequently two accepted submissions with the same user-agent and the
same current-time value store EQUAL hashes — pairwise distinctness of the
hashes of two submissions from the same client is not guaranteed. -/
theorem hash_recomputed_from_metadata (b1 b2 : PostFeedbackBody)
    (ua : Option String) (now : Nat) (id1 id2 : String)
    (st1 st2 st1' st2' : ServerState) (r1 r2 : String)
    (h1 : postFeedback b1 ua now id1 st1 = (.created r1, st1'))
    (h2 : postFeedback b2 ua now id2 st2 = (.created r2, st2')) :
    ∃ e1 e2, st1'.feedback = st1.feedback ++ [e1] ∧
      st2'.feedback = st2.feedback ++ [e2] ∧
      e1.hash = hashIdentifier ua now ∧ e2.hash = hashIdentifier ua now ∧
      e1.hash = e2.hash := by
  obtain ⟨-, -, cid1, -, hst1⟩ := postFeedback_created b1 ua now id1 st1 r1 st1' h1
  obtain ⟨-, -, cid2, -, hst2⟩ := postFeedback_created b2 ua now id2 st2 r2 st2' h2
  subst hst1; subst hst2
  exact ⟨_, _, rfl, rfl, rfl, rfl, rfl⟩

/-- Witness for the amended C3: the two concrete same-metadata submissions
of the counterexample, fed through the amended theorem. -/
theorem hash_recomputed_from_metadata_witness :
    ∃ e1 e2,
      (postFeedback ⟨some "general", some (.num 5), some "hello world"⟩ (some "Mozilla/5.0")
          1700000000000 "id1" initState).2.feedback = initState.feedback ++ [e1] ∧
      (postFeedback ⟨some "general", some (.num 5), some "hello world"⟩ (some "Mozilla/5.0")
          1700000000000 "id2" initState).2.feedback = initState.feedback ++ [e2] ∧
      e1.hash = hashIdentifier (some "Mozilla/5.0") 1700000000000 ∧
      e2.hash = hashIdentifier (some "Mozilla/5.0") 1700000000000 ∧
      e1.hash = e2.hash :=
  hash_recomputed_from_metadata
    ⟨some "general", some (.num 5), some "hello world"⟩
    ⟨some "general", some (.num 5), some "hello world"⟩
    (some "Mozilla/5.0") 1700000000000 "id1" "id2" initState initState _ _ "id1" "id2"
    rfl rfl

/-! ## PUT /api/admin/feedback/:id structure lemmas -/

/-- `applyPut` overwrites exactly the supplied fields and nothing else. -/
theorem applyPut_fields (b : PutFeedbackBody) (f : FeedbackEntry) :
    (applyPut b f).feedback_id = f.feedback_id ∧
    (applyPut b f).rating = f.rating ∧
    (applyPut b f).comment = f.comment ∧
    (applyPut b f).timestamp = f.timestamp ∧
    (applyPut b f).hash = f.hash ∧
    (applyPut b f).status = b.status.getD f.status ∧
    (applyPut b f).admin_note = b.admin_note.getD f.admin_note ∧
    (applyPut b f).category = b.category.getD f.category := by
  obtain ⟨s, n, c⟩ := b
  cases s <;> cases n <;> cases c <;> simp [applyPut]

/-- A successful `putUpdate` decomposes the list around the first matching
entry: everything before it does not match, the matching entry is replaced
by `applyPut`, everything after it is untouched. -/
theorem putUpdate_some (b : PutFeedbackBody) (id : String) :
    ∀ (l : List FeedbackEntry) (e : FeedbackEntry) (l' : List FeedbackEntry),
      putUpdate b id l = some (e, l') →
      ∃ pre old post, l = pre ++ old :: post ∧
        l' = pre ++ applyPut b old :: post ∧
        e = applyPut b old ∧ old.feedback_id = id ∧
        ∀ f ∈ pre, f.feedback_id ≠ id := by
  intro l
  induction l with
  | nil => intro e l' h; exact nomatch h
  | cons f rest ih =>
    intro e l' h
    simp only [putUpdate] at h
    by_cases hf : f.feedback_id = id
    · rw [if_pos hf] at h
      injection h with h'
      injection h' with he hl
      exact ⟨[], f, rest, rfl, hl.symm, he.symm, hf, by simp⟩
    · rw [if_neg hf] at h
      cases hrec : putUpdate b id rest with
      | none => rw [hrec] at h; exact nomatch h
      | some pr =>
        obtain ⟨e₀, rest'⟩ := pr
        rw [hrec] at h
        injection h with h'
        injection h' with he hl
        obtain ⟨pre, old, post, hl1, hl2, he0, hold, hpre⟩ := ih e₀ rest' hrec
        refine ⟨f :: pre, old, post, ?_, ?_, ?_, hold, ?_⟩
        · rw [List.cons_append, ← hl1]
        · rw [← hl, List.cons_append, ← hl2]
        · rw [← he, he0]
        · intro g hg
          rcases List.mem_cons.mp hg with hg | hg
          · rw [hg]; exact hf
          · exact hpre g hg

/-- A failed `putUpdate` means no entry matches. -/
theorem putUpdate_none (b : PutFeedbackBody) (id : String) :
    ∀ l : List FeedbackEntry, putUpdate b id l = none →
      ∀ f ∈ l, f.feedback_id ≠ id := by
  intro l
  induction l with
  | nil =>
    intro _ f hf
    exact absurd hf (List.not_mem_nil f)
  | cons f rest ih =>
    intro h g hg
    simp only [putUpdate] at h
    by_cases hf : f.feedback_id = id
    · rw [if_pos hf] at h
      exact nomatch h
    · rw [if_neg hf] at h
      rcases List.mem_cons.mp hg with hg | hg
      · rw [hg]; exact hf
      · cases hrec : putUpdate b id rest with
        | none => exact ih hrec g hg
        | some pr =>
          obtain ⟨e₀, rest'⟩ := pr
          rw [hrec] at h
          exact nomatch h

/-! ## C7: frame property of PUT /api/admin/feedback/:id -/

/-- Claim C7: a successful `PUT /api/admin/feedback/:id` changes only the
first entry whose `feedback_id` matches; within that entry only the
`status`, `admin_note` and `category` fields supplied in the body change
(absent fields keep their old value), while `feedback_id`, `rating`,
`comment`, `timestamp` and `hash` — and every other entry, and the
categories file — are untouched. -/
theorem putFeedback_frame (isAdmin : Bool) (id : String) (b : PutFeedbackBody)
    (st : ServerState) (e : FeedbackEntry) (st' : ServerState)
    (h : putFeedback isAdmin id b st = (.ok e, st')) :
    st'.categories = st.categories ∧
    ∃ pre old post, st.feedback = pre ++ old :: post ∧
      st'.feedback = pre ++ e :: post ∧
      old.feedback_id = id ∧ (∀ f ∈ pre, f.feedback_id ≠ id) ∧
      e.feedback_id = old.feedback_id ∧ e.rating = old.rating ∧
      e.comment = old.comment ∧ e.timestamp = old.timestamp ∧
      e.hash = old.hash ∧
      e.status = b.status.getD old.status ∧
      e.admin_note = b.admin_note.getD old.admin_note ∧
      e.category = b.category.getD old.category := by
  simp only [putFeedback] at h
  split_ifs at h with ha hs hc
  · cases hpu : putUpdate b id st.feedback with
    | none => rw [hpu] at h; injection h with hr _; exact nomatch hr
    | some pr =>
      obtain ⟨e₀, fb'⟩ := pr
      rw [hpu] at h; injection h with hr _; exact nomatch hr
  · cases hpu : putUpdate b id st.feedback with
    | none => rw [hpu] at h; injection h with hr _; exact nomatch hr
    | some pr =>
      obtain ⟨e₀, fb'⟩ := pr
      rw [hpu] at h; injection h with hr _; exact nomatch hr
  · cases hpu : putUpdate b id st.feedback with
    | none => rw [hpu] at h; injection h with hr _; exact nomatch hr
    | some pr =>
      obtain ⟨e₀, feedback'⟩ := pr
      rw [hpu] at h
      injection h with hr hst
      injection hr with hr
      obtain ⟨pre, old, post, hl1, hl2, he0, hold, hpre⟩ :=
        putUpdate_some b id st.feedback e₀ feedback' hpu
      obtain ⟨hfid, hrat, hcom, hts, hhash, hstat, hnote, hcat⟩ :=
        applyPut_fields b old
      subst hr
      refine ⟨by rw [← hst], pre, old, post, hl1, ?_, hold, hpre, ?_, ?_, ?_, ?_, ?_, ?_, ?_, ?_⟩
      · rw [← hst]
        show feedback' = pre ++ e₀ :: post
        rw [hl2, he0]
      · rw [he0]; exact hfid
      · rw [he0]; exact hrat
      · rw [he0]; exact hcom
      · rw [he0]; exact hts
      · rw [he0]; exact hhash
      · rw [he0]; exact hstat
      · rw [he0]; exact hnote
      · rw [he0]; exact hcat
  · injection h with hr _; exact nomatch hr

/-- Witness for C7: a concrete successful update of the middle entry of a
three-entry file, supplying only `status`. -/
theorem putFeedback_frame_witness :
    (ServerState.mk
        [⟨"a", "general", some 5, "aaaaa", "open", "", 1, "h1"⟩,
         ⟨"b", "general", some 4, "bbbbb", "completed", "n", 2, "h2"⟩,
         ⟨"c", "general", some 3, "ccccc", "open", "", 3, "h3"⟩]
        initState.categories).categories = (ServerState.mk
        [⟨"a", "general", some 5, "aaaaa", "open", "", 1, "h1"⟩,
         ⟨"b", "general", some 4, "bbbbb", "in_progress", "n", 2, "h2"⟩,
         ⟨"c", "general", some 3, "ccccc", "open", "", 3, "h3"⟩]
        initState.categories).categories ∧
    ∃ pre old post,
      (ServerState.mk
        [⟨"a", "general", some 5, "aaaaa", "open", "", 1, "h1"⟩,
         ⟨"b", "general", some 4, "bbbbb", "in_progress", "n", 2, "h2"⟩,
         ⟨"c", "general", some 3, "ccccc", "open", "", 3, "h3"⟩]
        initState.categories).feedback = pre ++ old :: post ∧
      (ServerState.mk
        [⟨"a", "general", some 5, "aaaaa", "open", "", 1, "h1"⟩,
         ⟨"b", "general", some 4, "bbbbb", "completed", "n", 2, "h2"⟩,
         ⟨"c", "general", some 3, "ccccc", "open", "", 3, "h3"⟩]
        initState.categories).feedback =
        pre ++ (⟨"b", "general", some 4, "bbbbb", "completed", "n", 2, "h2"⟩ : FeedbackEntry) :: post ∧
      old.feedback_id = "b" ∧ (∀ f ∈ pre, f.feedback_id ≠ "b") ∧
      (FeedbackEntry.mk "b" "general" (some 4) "bbbbb" "completed" "n" 2 "h2").feedback_id
        = old.feedback_id ∧
      (FeedbackEntry.mk "b" "general" (some 4) "bbbbb" "completed" "n" 2 "h2").rating = old.rating ∧
      (FeedbackEntry.mk "b" "general" (some 4) "bbbbb" "completed" "n" 2 "h2").comment = old.comment ∧
      (FeedbackEntry.mk "b" "general" (some 4) "bbbbb" "completed" "n" 2 "h2").timestamp
        = old.timestamp ∧
      (FeedbackEntry.mk "b" "general" (some 4) "bbbbb" "completed" "n" 2 "h2").hash = old.hash ∧
      (FeedbackEntry.mk "b" "general" (some 4) "bbbbb" "completed" "n" 2 "h2").status =
        (Option.getD (some "completed") old.status) ∧
      (FeedbackEntry.mk "b" "general" (some 4) "bbbbb" "completed" "n" 2 "h2").admin_note =
        (Option.getD none old.admin_note) ∧
      (FeedbackEntry.mk "b" "general" (some 4) "bbbbb" "completed" "n" 2 "h2").category =
        (Option.getD none old.category) :=
  putFeedback_frame true "b" ⟨some "completed", none, none⟩
    (ServerState.mk
      [⟨"a", "general", some 5, "aaaaa", "open", "", 1, "h1"⟩,
       ⟨"b", "general", some 4, "bbbbb", "in_progress", "n", 2, "h2"⟩,
       ⟨"c", "general", some 3, "ccccc", "open", "", 3, "h3"⟩]
      initState.categories)
    ⟨"b", "general", some 4, "bbbbb", "completed", "n", 2, "h2"⟩
    (ServerState.mk
      [⟨"a", "general", some 5, "aaaaa", "open", "", 1, "h1"⟩,
       ⟨"b", "general", some 4, "bbbbb", "completed", "n", 2, "h2"⟩,
       ⟨"c", "general", some 3, "ccccc", "open", "", 3, "h3"⟩]
      initState.categories)
    rfl

/-! ## C10: bulk delete -/

/-- Claim C10: `POST /api/admin/feedback/bulk-delete` answers 400 (without
writing) when `ids` is missing, not an array, or empty; otherwise it
removes exactly the entries whose `feedback_id` is in `ids`, ignores ids
matching no entry (never a 404), and reports `deleted` as the length
before minus the length after. -/
theorem bulkDelete_spec (ids : Option (List String)) (st : ServerState) :
    ((ids = none ∨ ids = some []) →
      (bulkDelete true ids st).1.code = 400 ∧ (bulkDelete true ids st).2 = st) ∧
    (∀ l, ids = some l → l ≠ [] →
      (bulkDelete true ids st).2.feedback =
        st.feedback.filter (fun f => ¬ l.contains f.feedback_id) ∧
      (bulkDelete true ids st).2.categories = st.categories ∧
      (bulkDelete true ids st).1 =
        .success (st.feedback.length - (bulkDelete true ids st).2.feedback.length) ∧
      (∀ f, f ∈ (bulkDelete true ids st).2.feedback ↔
        (f ∈ st.feedback ∧ ¬ l.contains f.feedback_id))) := by
  constructor
  · intro hbad
    rcases hbad with hn | he
    · subst hn; exact ⟨rfl, rfl⟩
    · subst he; exact ⟨rfl, rfl⟩
  · intro l hl hne
    subst hl
    have hlen : ¬ l.length = 0 := fun h0 => hne (List.length_eq_zero.mp h0)
    simp only [bulkDelete, Bool.not_true, if_neg hlen]
    refine ⟨rfl, rfl, rfl, ?_⟩
    intro f
    simp [List.mem_filter]

/-- Witness for C10: concretely, deleting ids `a`, `zz` from a two-entry
file removes just `a` and reports `deleted = 1`. -/
theorem bulkDelete_spec_witness :
    (bulkDelete true (some ["a", "zz"])
        (ServerState.mk
          [⟨"a", "general", some 5, "aaaaa", "open", "", 1, "h1"⟩,
           ⟨"b", "general", some 4, "bbbbb", "open", "", 2, "h2"⟩]
          initState.categories)).2.feedback =
      (ServerState.mk
          [⟨"a", "general", some 5, "aaaaa", "open", "", 1, "h1"⟩,
           ⟨"b", "general", some 4, "bbbbb", "open", "", 2, "h2"⟩]
          initState.categories).feedback.filter
        (fun f => ¬ (["a", "zz"].contains f.feedback_id)) ∧
    (bulkDelete true (some ["a", "zz"])
        (ServerState.mk
          [⟨"a", "general", some 5, "aaaaa", "open", "", 1, "h1"⟩,
           ⟨"b", "general", some 4, "bbbbb", "open", "", 2, "h2"⟩]
          initState.categories)).2.categories =
      (ServerState.mk
          [⟨"a", "general", some 5, "aaaaa", "open", "", 1, "h1"⟩,
           ⟨"b", "general", some 4, "bbbbb", "open", "", 2, "h2"⟩]
          initState.categories).categories ∧
    (bulkDelete true (some ["a", "zz"])
        (ServerState.mk
          [⟨"a", "general", some 5, "aaaaa", "open", "", 1, "h1"⟩,
           ⟨"b", "general", some 4, "bbbbb", "open", "", 2, "h2"⟩]
          initState.categories)).1 =
      .success ((ServerState.mk
          [⟨"a", "general", some 5, "aaaaa", "open", "", 1, "h1"⟩,
           ⟨"b", "general", some 4, "bbbbb", "open", "", 2, "h2"⟩]
          initState.categories).feedback.length -
        (bulkDelete true (some ["a", "zz"])
          (ServerState.mk
            [⟨"a", "general", some 5, "aaaaa", "open", "", 1, "h1"⟩,
             ⟨"b", "general", some 4, "bbbbb", "open", "", 2, "h2"⟩]
            initState.categories)).2.feedback.length) ∧
    (∀ f, f ∈ (bulkDelete true (some ["a", "zz"])
        (ServerState.mk
          [⟨"a", "general", some 5, "aaaaa", "open", "", 1, "h1"⟩,
           ⟨"b", "general", some 4, "bbbbb", "open", "", 2, "h2"⟩]
          initState.categories)).2.feedback ↔
      (f ∈ (ServerState.mk
          [⟨"a", "general", some 5, "aaaaa", "open", "", 1, "h1"⟩,
           ⟨"b", "general", some 4, "bbbbb", "open", "", 2, "h2"⟩]
          initState.categories).feedback ∧ ¬ (["a", "zz"].contains f.feedback_id))) :=
  (bulkDelete_spec (some ["a", "zz"])
      (ServerState.mk
        [⟨"a", "general", some 5, "aaaaa", "open", "", 1, "h1"⟩,
         ⟨"b", "general", some 4, "bbbbb", "open", "", 2, "h2"⟩]
        initState.categories)).2 ["a", "zz"] rfl (by decide)

/-! ## C9: no error response writes a file -/

/-- Claim C9: every mutating handler is atomic with respect to errors —
whenever the response status is an error (400, 401, 404), neither the
feedback collection nor the categories collection changes, because every
authentication and validation check returns before the single write at
the end of the handler. -/
theorem mutating_handlers_atomic :
    (∀ b ua now newId st, 400 ≤ (postFeedback b ua now newId st).1.code →
      (postFeedback b ua now newId st).2 = st) ∧
    (∀ a id b st, 400 ≤ (putFeedback a id b st).1.code →
      (putFeedback a id b st).2 = st) ∧
    (∀ a id st, 400 ≤ (deleteFeedback a id st).1.code →
      (deleteFeedback a id st).2 = st) ∧
    (∀ a ids st, 400 ≤ (bulkDelete a ids st).1.code →
      (bulkDelete a ids st).2 = st) ∧
    (∀ a n d newId st, 400 ≤ (postCategory a n d newId st).1.code →
      (postCategory a n d newId st).2 = st) ∧
    (∀ a id n d st, 400 ≤ (putCategory a id n d st).1.code →
      (putCategory a id n d st).2 = st) ∧
    (∀ a id st, 400 ≤ (deleteCategory a id st).1.code →
      (deleteCategory a id st).2 = st) := by
  refine ⟨?_, ?_, ?_, ?_, ?_, ?_, ?_⟩
  · intro b ua now newId st
    simp only [postFeedback]
    split_ifs with h1 h2 h3
    · intro _; rfl
    · intro _; rfl
    · intro _; rfl
    · cases hres : resolveCategory st.categories (b.category.getD "") with
      | none => intro _; rfl
      | some cid => intro hcode; exact absurd hcode (by decide : ¬ (400 ≤ 201))
  · intro a id b st
    simp only [putFeedback]
    split_ifs with ha hs hc
    · cases hpu : putUpdate b id st.feedback with
      | none => intro _; rfl
      | some pr => obtain ⟨e, fb⟩ := pr; intro _; rfl
    · cases hpu : putUpdate b id st.feedback with
      | none => intro _; rfl
      | some pr => obtain ⟨e, fb⟩ := pr; intro _; rfl
    · cases hpu : putUpdate b id st.feedback with
      | none => intro _; rfl
      | some pr =>
        obtain ⟨e, fb⟩ := pr
        intro hcode; exact absurd hcode (by decide : ¬ (400 ≤ 200))
    · intro _; rfl
  · intro a id st
    simp only [deleteFeedback]
    split_ifs with h1 h2
    · intro hcode; exact absurd hcode (by decide : ¬ (400 ≤ 200))
    · intro _; rfl
    · intro _; rfl
  · intro a ids st
    cases ids with
    | none =>
      simp only [bulkDelete]
      split_ifs with h1
      · intro _; rfl
      · intro _; rfl
    | some l =>
      simp only [bulkDelete]
      split_ifs with h1 h2
      · intro _; rfl
      · intro hcode; exact absurd hcode (by decide : ¬ (400 ≤ 200))
      · intro _; rfl
  · intro a n d newId st
    simp only [postCategory]
    split_ifs with h1 h2
    · intro _; rfl
    · intro hcode; exact absurd hcode (by decide : ¬ (400 ≤ 201))
    · intro _; rfl
  · intro a id n d st
    simp only [putCategory]
    split_ifs with h1
    · cases hcu : catUpdate n d id st.categories with
      | none => intro _; rfl
      | some pr =>
        obtain ⟨c, cats⟩ := pr
        intro hcode; exact absurd hcode (by decide : ¬ (400 ≤ 200))
    · intro _; rfl
  · intro a id st
    simp only [deleteCategory]
    split_ifs with h1 h2 h3
    · intro _; rfl
    · intro hcode; exact absurd hcode (by decide : ¬ (400 ≤ 200))
    · intro _; rfl
    · intro _; rfl

/-- Witness for C9: concrete error responses of three handlers (401
unauthorized delete, 400 short comment, 404 unknown feedback id) leave
the state untouched. -/
theorem mutating_handlers_atomic_witness :
    (deleteCategory false "general" initState).2 = initState ∧
    (postFeedback ⟨some "general", some (.num 4), some "abc"⟩ none 1 "f1" initState).2 = initState ∧
    (putFeedback true "nope" ⟨some "open", none, none⟩ initState).2 = initState :=
  ⟨mutating_handlers_atomic.2.2.2.2.2.2 false "general" initState (by decide),
   mutating_handlers_atomic.1 ⟨some "general", some (.num 4), some "abc"⟩ none 1 "f1" initState
     (by decide),
   mutating_handlers_atomic.2.1 true "nope" ⟨some "open", none, none⟩ initState (by decide)⟩

/-! ## C8: category accepted as id or case-insensitive name -/

theorem resolveCategory_isSome {cats : List Category} {s : String}
    (h : (∃ c ∈ cats, c.id = s) ∨ (∃ c ∈ cats, asciiLower c.name = asciiLower s)) :
    ∃ cid, resolveCategory cats s = some cid := by
  unfold resolveCategory
  cases hId : cats.find? (fun c => c.id = s) with
  | some byId => exact ⟨byId.id, rfl⟩
  | none =>
    cases hN : cats.find? (fun c => asciiLower c.name = asciiLower s) with
    | some byName => exact ⟨byName.id, rfl⟩
    | none =>
      exfalso
      rw [List.find?_eq_none] at hId hN
      rcases h with ⟨c, hc, he⟩ | ⟨c, hc, he⟩
      · exact hId c hc (by simp [he])
      · exact hN c hc (by simp [he])

/-- Claim C8: `POST /api/feedback` accepts the `category` field given
either as a category id or, case-insensitively, as a category display
name; the stored entry always carries a category id present in the
collection (an exact id match wins; otherwise the first case-insensitive
name match supplies its id — never the name itself). -/
theorem postFeedback_category_id :
    (∀ b ua now newId st r st',
      postFeedback b ua now newId st = (.created r, st') →
      ∃ nf, st' = { st with feedback := st.feedback ++ [nf] } ∧
        resolveCategory st.categories (b.category.getD "") = some nf.category ∧
        (∃ c ∈ st.categories, c.id = nf.category) ∧
        ((∃ c ∈ st.categories, c.id = b.category.getD "") →
          nf.category = b.category.getD "") ∧
        (∀ c, st.categories.find? (fun c => c.id = b.category.getD "") = none →
          st.categories.find? (fun c => asciiLower c.name = asciiLower (b.category.getD ""))
            = some c →
          nf.category = c.id)) ∧
    (∀ b ua now newId st (n : Int), b.rating = some (.num n) →
      1 ≤ n → n ≤ 5 → 5 ≤ (b.comment.getD "").length →
      b.category.getD "" ≠ "" →
      ((∃ c ∈ st.categories, c.id = b.category.getD "") ∨
        (∃ c ∈ st.categories, asciiLower c.name = asciiLower (b.category.getD ""))) →
      ∃ id', (postFeedback b ua now newId st).1 = .created id') := by
  constructor
  · intro b ua now newId st r st' h
    obtain ⟨-, -, cid, hres, hst⟩ := postFeedback_created b ua now newId st r st' h
    refine ⟨_, hst, hres, resolveCategory_mem hres, ?_, ?_⟩
    · intro hid
      have := resolveCategory_of_id hid
      rw [hres] at this
      show cid = b.category.getD ""
      exact Option.some.inj this
    · intro c hId hN
      have := resolveCategory_of_name hId hN
      rw [hres] at this
      show cid = c.id
      exact Option.some.inj this
  · intro b ua now newId st n hrat hr1 hr5 hlen hcat hmatch
    simp only [postFeedback]
    have hfal : ¬ ratingFalsy b.rating = true := by
      rw [hrat]
      simp only [ratingFalsy, decide_eq_true_eq]
      omega
    have hbnd : ¬ ratingBoundsBad b.rating = true := by
      rw [hrat]
      simp only [ratingBoundsBad, ratingOutOfRange, ratingToNumber, decide_eq_true_eq]
      omega
    have hc1 : ¬ (b.category.getD "" = "" ∨ ratingFalsy b.rating = true ∨
        b.comment.getD "" = "") := by
      push_neg
      refine ⟨hcat, hfal, ?_⟩
      intro hce
      rw [hce] at hlen
      exact absurd hlen (by decide)
    rw [if_neg hc1, if_neg (by omega : ¬ (b.comment.getD "").length < 5), if_neg hbnd]
    obtain ⟨cid, hres⟩ := resolveCategory_isSome hmatch
    rw [hres]
    exact ⟨newId, rfl⟩

/-- Witness for C8: submitting with category `GENERAL` (the display name
`General`, case-insensitively) is accepted and stores the id `general`. -/
theorem postFeedback_category_id_witness :
    (∃ nf, (ServerState.mk
        [⟨"f1", "general", some 4, "lovely course", "open", "", 7,
          hashIdentifier none 7⟩] initState.categories) =
        { initState with feedback := initState.feedback ++ [nf] } ∧
      resolveCategory initState.categories "GENERAL" = some nf.category ∧
      (∃ c ∈ initState.categories, c.id = nf.category) ∧
      ((∃ c ∈ initState.categories, c.id = "GENERAL") → nf.category = "GENERAL") ∧
      (∀ c, initState.categories.find? (fun c => c.id = "GENERAL") = none →
        initState.categories.find? (fun c => asciiLower c.name = asciiLower "GENERAL")
          = some c →
        nf.category = c.id)) ∧
    (∃ id', (postFeedback ⟨some "GENERAL", some (.num 4), some "lovely course"⟩ none 7 "f1"
        initState).1 = .created id') := by
  constructor
  · have h := postFeedback_category_id.1 ⟨some "GENERAL", some (.num 4), some "lovely course"⟩
      none 7 "f1" initState "f1"
      (ServerState.mk
        [⟨"f1", "general", some 4, "lovely course", "open", "", 7,
          hashIdentifier none 7⟩] initState.categories)
      rfl
    exact h
  · exact postFeedback_category_id.2 ⟨some "GENERAL", some (.num 4), some "lovely course"⟩
      none 7 "f1" initState 4 rfl (by decide) (by decide) (by decide) (by decide)
      (Or.inr ⟨⟨"general", "General", "General feedback"⟩, by decide, by decide⟩)

/-! ## State-shape lemmas for the mutating handlers -/

theorem postFeedback_state (b : PostFeedbackBody) (ua : Option String)
    (now : Nat) (newId : String) (st : ServerState) :
    (postFeedback b ua now newId st).2 = st ∨
    ∃ cid, resolveCategory st.categories (b.category.getD "") = some cid ∧
      (postFeedback b ua now newId st).2 = { st with feedback := st.feedback ++
        [⟨newId, cid, ratingStored b.rating, b.comment.getD "", "open", "", now,
          hashIdentifier ua now⟩] } := by
  simp only [postFeedback]
  split_ifs with h1 h2 h3
  · exact Or.inl rfl
  · exact Or.inl rfl
  · exact Or.inl rfl
  · cases hres : resolveCategory st.categories (b.category.getD "") with
    | none => exact Or.inl rfl
    | some cid => exact Or.inr ⟨cid, rfl, rfl⟩

theorem putFeedback_state (a : Bool) (id : String) (b : PutFeedbackBody)
    (st : ServerState) :
    (putFeedback a id b st).2 = st ∨
    ∃ e fb', putUpdate b id st.feedback = some (e, fb') ∧
      (∀ s, b.status = some s → statusAllowed s = true) ∧
      (∀ c, b.category = some c →
        (st.categories.any (fun cat => cat.id = c)) = true) ∧
      (putFeedback a id b st).2 = { st with feedback := fb' } := by
  simp only [putFeedback]
  split_ifs with ha hs hc
  · cases hpu : putUpdate b id st.feedback with
    | none => exact Or.inl rfl
    | some pr => obtain ⟨e, fb⟩ := pr; exact Or.inl rfl
  · cases hpu : putUpdate b id st.feedback with
    | none => exact Or.inl rfl
    | some pr => obtain ⟨e, fb⟩ := pr; exact Or.inl rfl
  · cases hpu : putUpdate b id st.feedback with
    | none => exact Or.inl rfl
    | some pr =>
      obtain ⟨e, fb⟩ := pr
      push_neg at hs hc
      exact Or.inr ⟨e, fb, rfl, hs, hc, rfl⟩
  · exact Or.inl rfl

theorem deleteFeedback_state (a : Bool) (id : String) (st : ServerState) :
    (deleteFeedback a id st).2 = st ∨
    (deleteFeedback a id st).2 =
      { st with feedback := st.feedback.filter (fun f => f.feedback_id ≠ id) } := by
  simp only [deleteFeedback]
  split_ifs with h1 h2
  · exact Or.inr rfl
  · exact Or.inl rfl
  · exact Or.inl rfl

theorem bulkDelete_state (a : Bool) (ids : Option (List String)) (st : ServerState) :
    (bulkDelete a ids st).2 = st ∨
    ∃ l : List String, (bulkDelete a ids st).2 =
      { st with feedback := st.feedback.filter (fun f => ¬ l.contains f.feedback_id) } := by
  cases ids with
  | none =>
    simp only [bulkDelete]
    split_ifs with h1
    · exact Or.inl rfl
    · exact Or.inl rfl
  | some l =>
    simp only [bulkDelete]
    split_ifs with h1 h2
    · exact Or.inl rfl
    · exact Or.inr ⟨l, rfl⟩
    · exact Or.inl rfl

theorem postCategory_state (a : Bool) (n d : Option String) (newId : String)
    (st : ServerState) :
    (postCategory a n d newId st).2 = st ∨
    ∃ nc, (postCategory a n d newId st).2 =
      { st with categories := st.categories ++ [nc] } := by
  simp only [postCategory]
  split_ifs with h1 h2
  · exact Or.inl rfl
  · exact Or.inr ⟨_, rfl⟩
  · exact Or.inl rfl

theorem putCategory_state (a : Bool) (id : String) (n d : Option String)
    (st : ServerState) :
    (putCategory a id n d st).2 = st ∨
    ∃ c cats', catUpdate n d id st.categories = some (c, cats') ∧
      (putCategory a id n d st).2 = { st with categories := cats' } := by
  simp only [putCategory]
  split_ifs with h1
  · cases hcu : catUpdate n d id st.categories with
    | none => exact Or.inl rfl
    | some pr =>
      obtain ⟨c, cats'⟩ := pr
      exact Or.inr ⟨c, cats', rfl, rfl⟩
  · exact Or.inl rfl

theorem deleteCategory_state (a : Bool) (id : String) (st : ServerState) :
    (deleteCategory a id st).2 = st ∨
    ((∀ f ∈ st.feedback, f.category ≠ id) ∧
      (deleteCategory a id st).2 =
        { st with categories := st.categories.filter (fun c => c.id ≠ id) }) := by
  simp only [deleteCategory]
  split_ifs with h1 h2 h3
  · exact Or.inl rfl
  · refine Or.inr ⟨?_, rfl⟩
    intro f hf hfc
    rw [List.any_eq_true] at h3
    push_neg at h3
    · exact absurd (by simp [hfc]) (h3 f hf)
  · exact Or.inl rfl
  · exact Or.inl rfl

/-- `applyCatPut` never changes the category id. -/
theorem applyCatPut_id (n d : Option String) (c : Category) :
    (applyCatPut n d c).id = c.id := by
  cases n with
  | none =>
    cases d with
    | none => rfl
    | some dd => rfl
  | some nn =>
    cases d with
    | none =>
      simp only [applyCatPut]
      split_ifs <;> rfl
    | some dd =>
      simp only [applyCatPut]
      split_ifs <;> rfl

/-- `catUpdate` preserves the list of category ids. -/
theorem catUpdate_ids (n d : Option String) (id : String) :
    ∀ (l : List Category) (c : Category) (l' : List Category),
      catUpdate n d id l = some (c, l') →
      l'.map Category.id = l.map Category.id := by
  intro l
  induction l with
  | nil => intro c l' h; exact nomatch h
  | cons f rest ih =>
    intro c l' h
    simp only [catUpdate] at h
    by_cases hf : f.id = id
    · rw [if_pos hf] at h
      injection h with h'
      injection h' with hc hl
      rw [← hl]
      simp [applyCatPut_id]
    · rw [if_neg hf] at h
      cases hrec : catUpdate n d id rest with
      | none => rw [hrec] at h; exact nomatch h
      | some pr =>
        obtain ⟨c₀, rest'⟩ := pr
        rw [hrec] at h
        injection h with h'
        injection h' with hc hl
        rw [← hl]
        simp only [List.map_cons]
        rw [ih c₀ rest' hrec]

/-- The status written by the normalization pass is `'open'` or the old
one. -/
theorem normalizeEntry_status (cats : List Category) (f : FeedbackEntry) :
    (normalizeEntry cats f).status = "open" ∨
    (normalizeEntry cats f).status = f.status := by
  unfold normalizeEntry
  dsimp only []
  split
  · split
    · exact Or.inl rfl
    · split
      · exact Or.inr rfl
      · exact Or.inr rfl
  · split
    · exact Or.inl rfl
    · exact Or.inr rfl

/-- The category written by the normalization pass is either the id of a
stored category or unchanged. -/
theorem normalizeEntry_category (cats : List Category) (f : FeedbackEntry) :
    (∃ c ∈ cats, c.id = (normalizeEntry cats f).category) ∨
    (normalizeEntry cats f).category = f.category := by
  unfold normalizeEntry
  dsimp only []
  split
  · split
    · split
      · rename_i c hfind
        exact Or.inl ⟨c, List.mem_reverse.mp (List.mem_of_find?_eq_some hfind), rfl⟩
      · exact Or.inr rfl
    · split
      · rename_i c hfind
        exact Or.inl ⟨c, List.mem_reverse.mp (List.mem_of_find?_eq_some hfind), rfl⟩
      · exact Or.inr rfl
  · split
    · exact Or.inr rfl
    · exact Or.inr rfl

/-! ## Invariant preservation over each operation -/

theorem statusOK_applyOp (st : ServerState) (op : Op) (h : statusOK st) :
    statusOK (applyOp st op) := by
  cases op with
  | post b ua now newId =>
    rcases postFeedback_state b ua now newId st with heq | ⟨cid, hres, heq⟩
    · simp only [applyOp]; rw [heq]; exact h
    · simp only [applyOp]; rw [heq]
      intro f hf
      rcases List.mem_append.mp hf with hf | hf
      · exact h f hf
      · rw [List.mem_singleton.mp hf]
        exact Or.inl rfl
  | putFb a id b =>
    rcases putFeedback_state a id b st with heq | ⟨e, fb', hpu, hstat, hcat, heq⟩
    · simp only [applyOp]; rw [heq]; exact h
    · simp only [applyOp]; rw [heq]
      obtain ⟨pre, old, post, hl1, hl2, he0, hold, hpre⟩ :=
        putUpdate_some b id st.feedback e fb' hpu
      intro f hf
      rw [hl2] at hf
      rcases List.mem_append.mp hf with hf | hf
      · exact h f (by rw [hl1]; exact List.mem_append_left _ hf)
      · rcases List.mem_cons.mp hf with hf | hf
        · have hstat' := (applyPut_fields b old).2.2.2.2.2.1
          rw [hf]
          cases hbs : b.status with
          | none =>
            rw [hstat', hbs]
            exact h old (by rw [hl1]; exact List.mem_append_right _ (List.mem_cons_self _ _))
          | some s =>
            rw [hstat', hbs]
            have hall := hstat s hbs
            simp only [statusAllowed] at hall
            simpa using of_decide_eq_true hall
        · exact h f (by rw [hl1]; exact List.mem_append_right _ (List.mem_cons_of_mem _ hf))
  | delFb a id =>
    rcases deleteFeedback_state a id st with heq | heq
    · simp only [applyOp]; rw [heq]; exact h
    · simp only [applyOp]; rw [heq]
      intro f hf
      exact h f (List.mem_of_mem_filter hf)
  | bulkDel a ids =>
    rcases bulkDelete_state a ids st with heq | ⟨l, heq⟩
    · simp only [applyOp]; rw [heq]; exact h
    · simp only [applyOp]; rw [heq]
      intro f hf
      exact h f (List.mem_of_mem_filter hf)
  | postCat a n d newId =>
    rcases postCategory_state a n d newId st with heq | ⟨nc, heq⟩
    · simp only [applyOp]; rw [heq]; exact h
    · simp only [applyOp]; rw [heq]; exact h
  | putCat a id n d =>
    rcases putCategory_state a id n d st with heq | ⟨c, cats', hcu, heq⟩
    · simp only [applyOp]; rw [heq]; exact h
    · simp only [applyOp]; rw [heq]; exact h
  | delCat a id =>
    rcases deleteCategory_state a id st with heq | ⟨hnf, heq⟩
    · simp only [applyOp]; rw [heq]; exact h
    · simp only [applyOp]; rw [heq]; exact h
  | normalize =>
    simp only [applyOp, normalizeData]
    intro f hf
    rcases List.mem_map.mp hf with ⟨g, hg, rfl⟩
    rcases normalizeEntry_status st.categories g with hs | hs
    · exact Or.inl hs
    · rw [hs]
      exact h g hg

theorem refIntegrity_applyOp (st : ServerState) (op : Op) (h : refIntegrity st) :
    refIntegrity (applyOp st op) := by
  cases op with
  | post b ua now newId =>
    rcases postFeedback_state b ua now newId st with heq | ⟨cid, hres, heq⟩
    · simp only [applyOp]; rw [heq]; exact h
    · simp only [applyOp]; rw [heq]
      intro f hf
      rcases List.mem_append.mp hf with hf | hf
      · exact h f hf
      · rw [List.mem_singleton.mp hf]
        exact resolveCategory_mem hres
  | putFb a id b =>
    rcases putFeedback_state a id b st with heq | ⟨e, fb', hpu, hstat, hcat, heq⟩
    · simp only [applyOp]; rw [heq]; exact h
    · simp only [applyOp]; rw [heq]
      obtain ⟨pre, old, post, hl1, hl2, he0, hold, hpre⟩ :=
        putUpdate_some b id st.feedback e fb' hpu
      intro f hf
      rw [hl2] at hf
      rcases List.mem_append.mp hf with hf | hf
      · exact h f (by rw [hl1]; exact List.mem_append_left _ hf)
      · rcases List.mem_cons.mp hf with hf | hf
        · have hcat' := (applyPut_fields b old).2.2.2.2.2.2.2
          rw [hf]
          cases hbc : b.category with
          | none =>
            rw [hcat', hbc]
            exact h old (by rw [hl1]; exact List.mem_append_right _ (List.mem_cons_self _ _))
          | some c =>
            rw [hcat', hbc]
            obtain ⟨cat, hcmem, hcid⟩ := List.any_eq_true.mp (hcat c hbc)
            exact ⟨cat, hcmem, of_decide_eq_true hcid⟩
        · exact h f (by rw [hl1]; exact List.mem_append_right _ (List.mem_cons_of_mem _ hf))
  | delFb a id =>
    rcases deleteFeedback_state a id st with heq | heq
    · simp only [applyOp]; rw [heq]; exact h
    · simp only [applyOp]; rw [heq]
      intro f hf
      exact h f (List.mem_of_mem_filter hf)
  | bulkDel a ids =>
    rcases bulkDelete_state a ids st with heq | ⟨l, heq⟩
    · simp only [applyOp]; rw [heq]; exact h
    · simp only [applyOp]; rw [heq]
      intro f hf
      exact h f (List.mem_of_mem_filter hf)
  | postCat a n d newId =>
    rcases postCategory_state a n d newId st with heq | ⟨nc, heq⟩
    · simp only [applyOp]; rw [heq]; exact h
    · simp only [applyOp]; rw [heq]
      intro f hf
      obtain ⟨c, hc, hcid⟩ := h f hf
      exact ⟨c, List.mem_append_left _ hc, hcid⟩
  | putCat a id n d =>
    rcases putCategory_state a id n d st with heq | ⟨c, cats', hcu, heq⟩
    · simp only [applyOp]; rw [heq]; exact h
    · simp only [applyOp]; rw [heq]
      intro f hf
      obtain ⟨c₀, hc₀, hcid⟩ := h f hf
      have hin : f.category ∈ cats'.map Category.id := by
        rw [catUpdate_ids n d id st.categories c cats' hcu]
        exact List.mem_map.mpr ⟨c₀, hc₀, hcid⟩
      obtain ⟨c₁, hc₁, hcid₁⟩ := List.mem_map.mp hin
      exact ⟨c₁, hc₁, hcid₁⟩
  | delCat a id =>
    rcases deleteCategory_state a id st with heq | ⟨hnf, heq⟩
    · simp only [applyOp]; rw [heq]; exact h
    · simp only [applyOp]; rw [heq]
      intro f hf
      obtain ⟨c, hc, hcid⟩ := h f hf
      have hne : c.id ≠ id := by rw [hcid]; exact hnf f hf
      exact ⟨c, List.mem_filter.mpr ⟨hc, decide_eq_true hne⟩, hcid⟩
  | normalize =>
    simp only [applyOp, normalizeData]
    intro f hf
    rcases List.mem_map.mp hf with ⟨g, hg, rfl⟩
    rcases normalizeEntry_category st.categories g with hs | hs
    · exact hs
    · rw [hs]
      exact h g hg

theorem statusOK_foldl : ∀ (ops : List Op) (st : ServerState), statusOK st →
    statusOK (ops.foldl applyOp st) := by
  intro ops
  induction ops with
  | nil => intro st h; exact h
  | cons op rest ih =>
    intro st h
    exact ih (applyOp st op) (statusOK_applyOp st op h)

theorem refIntegrity_foldl : ∀ (ops : List Op) (st : ServerState), refIntegrity st →
    refIntegrity (ops.foldl applyOp st) := by
  intro ops
  induction ops with
  | nil => intro st h; exact h
  | cons op rest ih =>
    intro st h
    exact ih (applyOp st op) (refIntegrity_applyOp st op h)

theorem statusOK_runOps (ops : List Op) : statusOK (runOps ops) :=
  statusOK_foldl ops initState (fun f hf => absurd hf (List.not_mem_nil f))

theorem refIntegrity_runOps (ops : List Op) : refIntegrity (runOps ops) :=
  refIntegrity_foldl ops initState (fun f hf => absurd hf (List.not_mem_nil f))

/-! ## C6: the three-valued status field -/

/-- Claim C6: in every state reachable from the seeded initial state the
status of every stored feedback entry is one of `open`, `in_progress`,
`completed`; `POST /api/feedback` initializes the status to `open`, and
`PUT /api/admin/feedback/:id` rejects any other status value with HTTP 400
without writing. -/
theorem status_three_valued :
    (∀ ops : List Op, statusOK (runOps ops)) ∧
    (∀ b ua now newId st r st',
      postFeedback b ua now newId st = (.created r, st') →
      ∃ nf, st'.feedback = st.feedback ++ [nf] ∧ nf.status = "open") ∧
    (∀ (isAdmin : Bool) id b st s, b.status = some s → ¬ statusAllowed s = true →
      (putFeedback isAdmin id b st).2 = st ∧
      (isAdmin = true → (∃ f ∈ st.feedback, f.feedback_id = id) →
        (putFeedback isAdmin id b st).1 = .invalidStatus ∧
        ((putFeedback isAdmin id b st).1.code = 400))) := by
  refine ⟨statusOK_runOps, ?_, ?_⟩
  · intro b ua now newId st r st' h
    obtain ⟨-, -, cid, hres, hst⟩ := postFeedback_created b ua now newId st r st' h
    subst hst
    exact ⟨_, rfl, rfl⟩
  · intro isAdmin id b st s hsome hbad
    constructor
    · rcases putFeedback_state isAdmin id b st with heq | ⟨e, fb', hpu, hstat, hcat, heq⟩
      · exact heq
      · exact absurd (hstat s hsome) hbad
    · intro ha hex
      subst ha
      simp only [putFeedback]
      rw [if_neg (not_not_intro trivial)]
      cases hpu : putUpdate b id st.feedback with
      | none =>
        exfalso
        obtain ⟨f, hfmem, hfid⟩ := hex
        exact putUpdate_none b id st.feedback hpu f hfmem hfid
      | some pr =>
        obtain ⟨e, fb'⟩ := pr
        simp only [hpu]
        rw [if_pos ⟨s, hsome, hbad⟩]
        exact ⟨rfl, rfl⟩

/-- Witness for C6: one accepted submission leads to a state whose only
entry has status `open`; and a concrete `PUT` with status `weird` on that
state is rejected with 400 and does not write. -/
theorem status_three_valued_witness :
    statusOK (runOps [Op.post ⟨some "general", some (.num 4), some "nice work"⟩ none 5 "f1"]) ∧
    (∃ nf, (ServerState.mk [⟨"f1", "general", some 4, "nice work", "open", "", 5,
        hashIdentifier none 5⟩] initState.categories).feedback =
        initState.feedback ++ [nf] ∧ nf.status = "open") ∧
    ((putFeedback true "f1" ⟨some "weird", none, none⟩
        (ServerState.mk [⟨"f1", "general", some 4, "nice work", "open", "", 5,
          hashIdentifier none 5⟩] initState.categories)).2 =
      ServerState.mk [⟨"f1", "general", some 4, "nice work", "open", "", 5,
        hashIdentifier none 5⟩] initState.categories ∧
      (true = true →
        (∃ f ∈ (ServerState.mk [⟨"f1", "general", some 4, "nice work", "open", "", 5,
            hashIdentifier none 5⟩] initState.categories).feedback,
          f.feedback_id = "f1") →
        (putFeedback true "f1" ⟨some "weird", none, none⟩
          (ServerState.mk [⟨"f1", "general", some 4, "nice work", "open", "", 5,
            hashIdentifier none 5⟩] initState.categories)).1 = .invalidStatus ∧
        ((putFeedback true "f1" ⟨some "weird", none, none⟩
          (ServerState.mk [⟨"f1", "general", some 4, "nice work", "open", "", 5,
            hashIdentifier none 5⟩] initState.categories)).1.code = 400))) :=
  ⟨status_three_valued.1 [Op.post ⟨some "general", some (.num 4), some "nice work"⟩ none 5 "f1"],
   status_three_valued.2.1 ⟨some "general", some (.num 4), some "nice work"⟩ none 5 "f1"
     initState "f1" (ServerState.mk [⟨"f1", "general", some 4, "nice work", "open", "", 5,
       hashIdentifier none 5⟩] initState.categories) rfl,
   status_three_valued.2.2 true "f1" ⟨some "weird", none, none⟩
     (ServerState.mk [⟨"f1", "general", some 4, "nice work", "open", "", 5,
       hashIdentifier none 5⟩] initState.categories) "weird" rfl (by decide)⟩

/-! ## C2: category deletion blocked while referenced -/

/-- Claim C2: against any reachable state, an authenticated
`DELETE /api/admin/categories/:id` fails with HTTP 400 leaving the
categories (and feedback) unchanged whenever some feedback entry
references the id; a category is removed only when it exists and no entry
references it; a non-existent id yields 404 with nothing written. -/
theorem deleteCategory_in_use_guard (ops : List Op) (id : String) :
    ((∃ f ∈ (runOps ops).feedback, f.category = id) →
      (deleteCategory true id (runOps ops)).1.code = 400 ∧
      (deleteCategory true id (runOps ops)).2 = runOps ops) ∧
    ((deleteCategory true id (runOps ops)).1 = .success →
      (∀ f ∈ (runOps ops).feedback, f.category ≠ id) ∧
      (∃ c ∈ (runOps ops).categories, c.id = id) ∧
      (deleteCategory true id (runOps ops)).2.feedback = (runOps ops).feedback ∧
      (deleteCategory true id (runOps ops)).2.categories =
        (runOps ops).categories.filter (fun c => c.id ≠ id)) ∧
    ((∀ c ∈ (runOps ops).categories, c.id ≠ id) →
      (deleteCategory true id (runOps ops)).1 = .notFound ∧
      (deleteCategory true id (runOps ops)).2 = runOps ops) := by
  have hri := refIntegrity_runOps ops
  set st := runOps ops with hst
  refine ⟨?_, ?_, ?_⟩
  · rintro ⟨f, hf, hfc⟩
    obtain ⟨c, hc, hcid⟩ := hri f hf
    have hex : (st.categories.any fun c => c.id = id) = true :=
      List.any_eq_true.mpr ⟨c, hc, decide_eq_true (by rw [hcid, hfc])⟩
    have hinuse : (st.feedback.any fun f => f.category = id) = true :=
      List.any_eq_true.mpr ⟨f, hf, decide_eq_true hfc⟩
    simp [deleteCategory, hex, hinuse, DeleteCategoryResp.code]
  · intro hsucc
    by_cases hex : (st.categories.any fun c => c.id = id) = true
    · by_cases hinuse : (st.feedback.any fun f => f.category = id) = true
      · exfalso
        simp [deleteCategory, hex, hinuse] at hsucc
      · refine ⟨?_, ?_, ?_, ?_⟩
        · intro f hf hfc
          exact hinuse (List.any_eq_true.mpr ⟨f, hf, decide_eq_true hfc⟩)
        · obtain ⟨c, hc, hcid⟩ := List.any_eq_true.mp hex
          exact ⟨c, hc, of_decide_eq_true hcid⟩
        · simp [deleteCategory, hex, hinuse]
        · simp [deleteCategory, hex, hinuse]
    · exfalso
      simp [deleteCategory, hex] at hsucc
  · intro hnone
    have hex : ¬ (st.categories.any fun c => c.id = id) = true := by
      intro hx
      obtain ⟨c, hc, hcid⟩ := List.any_eq_true.mp hx
      exact hnone c hc (of_decide_eq_true hcid)
    simp [deleteCategory, hex]

/-- Witness for C2: after one accepted submission referencing `general`,
deleting `general` concretely returns 400 and changes nothing, and
deleting the unknown id `nope` returns 404. -/
theorem deleteCategory_in_use_guard_witness :
    ((deleteCategory true "general"
        (runOps [Op.post ⟨some "general", some (.num 4), some "nice work"⟩ none 5 "f1"])).1.code
      = 400 ∧
      (deleteCategory true "general"
        (runOps [Op.post ⟨some "general", some (.num 4), some "nice work"⟩ none 5 "f1"])).2 =
        runOps [Op.post ⟨some "general", some (.num 4), some "nice work"⟩ none 5 "f1"]) ∧
    ((deleteCategory true "nope"
        (runOps [Op.post ⟨some "general", some (.num 4), some "nice work"⟩ none 5 "f1"])).1
      = .notFound ∧
      (deleteCategory true "nope"
        (runOps [Op.post ⟨some "general", some (.num 4), some "nice work"⟩ none 5 "f1"])).2 =
        runOps [Op.post ⟨some "general", some (.num 4), some "nice work"⟩ none 5 "f1"]) :=
  ⟨(deleteCategory_in_use_guard
      [Op.post ⟨some "general", some (.num 4), some "nice work"⟩ none 5 "f1"] "general").1
    ⟨⟨"f1", "general", some 4, "nice work", "open", "", 5, hashIdentifier none 5⟩,
      List.mem_singleton.mpr rfl, rfl⟩,
   (deleteCategory_in_use_guard
      [Op.post ⟨some "general", some (.num 4), some "nice work"⟩ none 5 "f1"] "nope").2.2
    (by decide)⟩

/-! ## C4: the admin feedback query -/

theorem condFilter_eq (p : Option (FeedbackEntry → Bool)) (l : List FeedbackEntry) :
    condFilter p l = l.filter (optHolds p) := by
  cases p with
  | none =>
    show l = List.filter (optHolds none) l
    rw [show optHolds (none : Option (FeedbackEntry → Bool)) = fun _ => true from rfl,
      List.filter_true]
  | some pred => rfl

/-- Claim C4: for any subset of the query parameters, an authenticated
`GET /api/admin/feedback` returns exactly the entries satisfying the
conjunction of all supplied filters (category, parsed rating, status with
`open` defaulting, inclusive date range, case-insensitive search over
comment and admin note), sorted by timestamp newest first. -/
theorem getAdminFeedback_filters (q : FeedbackQuery) (st : ServerState)
    (l : List FeedbackEntry) (h : getAdminFeedback true q st = .ok l) :
    l.Perm (st.feedback.filter (matchesQuery q)) ∧
    (∀ f, f ∈ l ↔ (f ∈ st.feedback ∧ matchesQuery q f = true)) ∧
    l.Sorted tsDesc := by
  simp only [getAdminFeedback] at h
  rw [if_neg (not_not_intro trivial)] at h
  injection h with hl
  have hchain : condFilter (searchPred q) (condFilter (endDatePred q)
      (condFilter (startDatePred q) (condFilter (statusPred q)
        (condFilter (ratingPred q) (condFilter (categoryPred q) st.feedback))))) =
      st.feedback.filter (matchesQuery q) := by
    simp only [condFilter_eq, List.filter_filter]
    apply List.filter_congr
    intro f _
    simp only [matchesQuery]
    cases optHolds (categoryPred q) f <;> cases optHolds (ratingPred q) f <;>
      cases optHolds (statusPred q) f <;> cases optHolds (startDatePred q) f <;>
      cases optHolds (endDatePred q) f <;> cases optHolds (searchPred q) f <;> rfl
  rw [hchain] at hl
  subst hl
  refine ⟨List.perm_insertionSort tsDesc _, ?_, List.sorted_insertionSort tsDesc _⟩
  intro f
  rw [(List.perm_insertionSort tsDesc _).mem_iff, List.mem_filter]

/-- Witness for C4: the query rating=5, search=stuff, status=all over a
concrete three-entry file returns the two matching entries newest first. -/
theorem getAdminFeedback_filters_witness :
    ([⟨"c", "general", some 5, "more stuff", "completed", "", 15, "h3"⟩,
      (⟨"a", "general", some 5, "great stuff", "open", "", 10, "h1"⟩ : FeedbackEntry)]).Perm
      ((ServerState.mk
        [⟨"a", "general", some 5, "great stuff", "open", "", 10, "h1"⟩,
         ⟨"b", "general", some 3, "bad stuff", "open", "", 20, "h2"⟩,
         ⟨"c", "general", some 5, "more stuff", "completed", "", 15, "h3"⟩]
        initState.categories).feedback.filter
        (matchesQuery ⟨none, some "5", some "stuff", none, none, some "all"⟩)) ∧
    (∀ f, f ∈ [⟨"c", "general", some 5, "more stuff", "completed", "", 15, "h3"⟩,
        (⟨"a", "general", some 5, "great stuff", "open", "", 10, "h1"⟩ : FeedbackEntry)] ↔
      (f ∈ (ServerState.mk
        [⟨"a", "general", some 5, "great stuff", "open", "", 10, "h1"⟩,
         ⟨"b", "general", some 3, "bad stuff", "open", "", 20, "h2"⟩,
         ⟨"c", "general", some 5, "more stuff", "completed", "", 15, "h3"⟩]
        initState.categories).feedback ∧
        matchesQuery ⟨none, some "5", some "stuff", none, none, some "all"⟩ f = true)) ∧
    List.Sorted tsDesc
      [⟨"c", "general", some 5, "more stuff", "completed", "", 15, "h3"⟩,
       (⟨"a", "general", some 5, "great stuff", "open", "", 10, "h1"⟩ : FeedbackEntry)] :=
  getAdminFeedback_filters ⟨none, some "5", some "stuff", none, none, some "all"⟩
    (ServerState.mk
      [⟨"a", "general", some 5, "great stuff", "open", "", 10, "h1"⟩,
       ⟨"b", "general", some 3, "bad stuff", "open", "", 20, "h2"⟩,
       ⟨"c", "general", some 5, "more stuff", "completed", "", 15, "h3"⟩]
      initState.categories)
    [⟨"c", "general", some 5, "more stuff", "completed", "", 15, "h3"⟩,
     ⟨"a", "general", some 5, "great stuff", "open", "", 10, "h1"⟩]
    rfl

/-! ## C5: the word-frequency summarizer -/

theorem bump_find?_self (w : String) :
    ∀ acc : List (String × Nat),
      (bump w acc).find? (fun p => p.1 = w) =
        match acc.find? (fun p => p.1 = w) with
        | some p => some (p.1, p.2 + 1)
        | none => some (w, 1) := by
  intro acc
  induction acc with
  | nil => simp [bump]
  | cons hd tl ih =>
    obtain ⟨x, n⟩ := hd
    by_cases hx : x = w
    · subst hx
      have hb : bump x ((x, n) :: tl) = (x, n + 1) :: tl := by simp [bump]
      rw [hb, List.find?_cons_of_pos _ (by simp), List.find?_cons_of_pos _ (by simp)]
    · rw [List.find?_cons_of_neg _ (by simp [hx])]
      simp only [bump, if_neg hx]
      rw [List.find?_cons_of_neg _ (by simp [hx])]
      exact ih

theorem bump_find?_other (w w' : String) (hne : w' ≠ w) :
    ∀ acc : List (String × Nat),
      (bump w acc).find? (fun p => p.1 = w') = acc.find? (fun p => p.1 = w') := by
  intro acc
  induction acc with
  | nil => simp [bump, Ne.symm hne]
  | cons hd tl ih =>
    obtain ⟨x, n⟩ := hd
    by_cases hx : x = w
    · subst hx
      have hb : bump x ((x, n) :: tl) = (x, n + 1) :: tl := by simp [bump]
      rw [hb, List.find?_cons_of_neg _ (by simp [Ne.symm hne]),
        List.find?_cons_of_neg _ (by simp [Ne.symm hne])]
    · simp only [bump, if_neg hx]
      by_cases hx' : x = w'
      · subst hx'
        rw [List.find?_cons_of_pos _ (by simp), List.find?_cons_of_pos _ (by simp)]
      · rw [List.find?_cons_of_neg _ (by simp [hx']),
          List.find?_cons_of_neg _ (by simp [hx'])]
        exact ih

theorem bump_keys_mem (w : String) :
    ∀ acc : List (String × Nat), w ∈ acc.map Prod.fst →
      (bump w acc).map Prod.fst = acc.map Prod.fst := by
  intro acc
  induction acc with
  | nil => intro h; exact absurd h (List.not_mem_nil w)
  | cons hd tl ih =>
    obtain ⟨x, n⟩ := hd
    intro h
    by_cases hx : x = w
    · subst hx; simp [bump]
    · simp only [bump, if_neg hx, List.map_cons]
      congr 1
      apply ih
      rcases List.mem_cons.mp h with h | h
      · exact absurd h.symm hx
      · exact h

theorem bump_keys_new (w : String) :
    ∀ acc : List (String × Nat), w ∉ acc.map Prod.fst →
      (bump w acc).map Prod.fst = acc.map Prod.fst ++ [w] := by
  intro acc
  induction acc with
  | nil => intro _; rfl
  | cons hd tl ih =>
    obtain ⟨x, n⟩ := hd
    intro h
    simp only [List.map_cons, List.mem_cons, not_or] at h
    obtain ⟨hxw, htl⟩ := h
    simp only [bump, if_neg (fun (he : x = w) => hxw he.symm), List.map_cons,
      List.cons_append]
    congr 1
    exact ih htl

theorem wordCount_loop :
    ∀ (rest processed : List String) (acc : List (String × Nat)),
      (acc.map Prod.fst).Nodup →
      (∀ w, acc.find? (fun p => p.1 = w) =
        if w ∈ processed then some (w, processed.count w) else none) →
      (((rest.foldl (fun a w => bump w a) acc).map Prod.fst).Nodup ∧
       (∀ w, (rest.foldl (fun a w => bump w a) acc).find? (fun p => p.1 = w) =
         if w ∈ processed ++ rest then some (w, (processed ++ rest).count w) else none)) := by
  intro rest
  induction rest with
  | nil =>
    intro processed acc hnd hinv
    simp only [List.foldl_nil, List.append_nil]
    exact ⟨hnd, hinv⟩
  | cons r rest' ih =>
    intro processed acc hnd hinv
    simp only [List.foldl_cons]
    have hkeys : ∀ w, w ∈ acc.map Prod.fst ↔ w ∈ processed := by
      intro w
      constructor
      · intro hw
        by_contra hnp
        have hkw := hinv w
        rw [if_neg hnp, List.find?_eq_none] at hkw
        obtain ⟨p, hp, hp1⟩ := List.mem_map.mp hw
        exact hkw p hp (by simp [hp1])
      · intro hw
        have hkw := hinv w
        rw [if_pos hw] at hkw
        exact List.mem_map.mpr ⟨(w, processed.count w), List.mem_of_find?_eq_some hkw, rfl⟩
    have hnd' : ((bump r acc).map Prod.fst).Nodup := by
      by_cases hr : r ∈ acc.map Prod.fst
      · rw [bump_keys_mem r acc hr]; exact hnd
      · rw [bump_keys_new r acc hr, List.nodup_append]
        exact ⟨hnd, List.nodup_singleton r, List.disjoint_singleton.mpr hr⟩
    have hinv' : ∀ w, (bump r acc).find? (fun p => p.1 = w) =
        if w ∈ processed ++ [r] then some (w, (processed ++ [r]).count w) else none := by
      intro w
      by_cases hw : w = r
      · subst hw
        rw [bump_find?_self w acc, hinv w]
        by_cases hp : w ∈ processed
        · rw [if_pos hp, if_pos (List.mem_append.mpr (Or.inl hp))]
          simp [List.count_append, List.count_singleton]
        · rw [if_neg hp, if_pos (List.mem_append.mpr (Or.inr (List.mem_singleton.mpr rfl)))]
          simp [List.count_append, List.count_singleton, List.count_eq_zero.mpr hp]
      · rw [bump_find?_other r w hw acc, hinv w]
        have hmem : (w ∈ processed ++ [r]) ↔ w ∈ processed := by
          simp [List.mem_append, hw]
        by_cases hp : w ∈ processed
        · rw [if_pos hp, if_pos (hmem.mpr hp)]
          simp [List.count_append, List.count_singleton, Ne.symm hw]
        · rw [if_neg hp, if_neg (fun hx => hp (hmem.mp hx))]
    have hres := ih (processed ++ [r]) (bump r acc) hnd' hinv'
    rw [List.append_assoc] at hres
    simpa using hres

theorem wordCount_spec (ws : List String) :
    ((wordCount ws).map Prod.fst).Nodup ∧
    (∀ w, (wordCount ws).find? (fun p => p.1 = w) =
      if w ∈ ws then some (w, ws.count w) else none) := by
  have h := wordCount_loop ws [] [] List.nodup_nil (by intro w; simp)
  simpa [wordCount] using h

theorem find?_eq_of_mem_nodup :
    ∀ (acc : List (String × Nat)) (p : String × Nat),
      (acc.map Prod.fst).Nodup → p ∈ acc →
      acc.find? (fun q => q.1 = p.1) = some p := by
  intro acc
  induction acc with
  | nil => intro p _ hp; exact absurd hp (List.not_mem_nil p)
  | cons hd tl ih =>
    intro p hnd hp
    simp only [List.map_cons, List.nodup_cons] at hnd
    obtain ⟨hh, ht⟩ := hnd
    rcases List.mem_cons.mp hp with hph | hp'
    · rw [hph]
      exact List.find?_cons_of_pos _ (by simp)
    · have hne : hd.1 ≠ p.1 := by
        intro he
        exact hh (he ▸ List.mem_map.mpr ⟨p, hp', rfl⟩)
      rw [List.find?_cons_of_neg _ (by simp [hne])]
      exact ih p ht hp'

/-- Claim C5: the `commonWords` field of `GET /api/admin/analytics` lists
at most 10 entries, sorted by count descending; each listed word is a
maximal run of at least 4 word characters of the lowercased joined
comments, paired with its exact occurrence count; and no unlisted word
occurs more often than any listed one. -/
theorem analytics_commonWords_spec (st : ServerState) (l : List (String × Nat))
    (h : getAnalyticsCommonWords true st = some l) :
    l.length ≤ 10 ∧
    l.Sorted countDesc ∧
    (∀ p ∈ l, p.1 ∈ matchWords (allCommentsOf st.feedback) ∧
      p.2 = (matchWords (allCommentsOf st.feedback)).count p.1) ∧
    (∀ w, w ∈ matchWords (allCommentsOf st.feedback) →
      (∀ p ∈ l, p.1 ≠ w) →
      ∀ p ∈ l, (matchWords (allCommentsOf st.feedback)).count w ≤ p.2) := by
  simp only [getAnalyticsCommonWords] at h
  rw [if_neg (not_not_intro trivial)] at h
  injection h with hl
  subst hl
  simp only [commonWords]
  obtain ⟨hnd, hinv⟩ := wordCount_spec (matchWords (allCommentsOf st.feedback))
  have hperm := List.perm_insertionSort countDesc
    (wordCount (matchWords (allCommentsOf st.feedback)))
  have hsort := List.sorted_insertionSort countDesc
    (wordCount (matchWords (allCommentsOf st.feedback)))
  refine ⟨?_, ?_, ?_, ?_⟩
  · rw [List.length_take]
    exact min_le_left _ _
  · exact List.Pairwise.sublist (List.take_sublist 10 _) hsort
  · intro p hp
    have hpmem : p ∈ wordCount (matchWords (allCommentsOf st.feedback)) :=
      hperm.mem_iff.mp (List.Sublist.mem hp (List.take_sublist 10 _))
    have hfind := find?_eq_of_mem_nodup _ p hnd hpmem
    rw [hinv p.1] at hfind
    by_cases hin : p.1 ∈ matchWords (allCommentsOf st.feedback)
    · rw [if_pos hin] at hfind
      injection hfind with h1
      exact ⟨hin, (congrArg Prod.snd h1).symm⟩
    · rw [if_neg hin] at hfind
      exact nomatch hfind
  · intro w hw hnotin p hp
    have hfind := hinv w
    rw [if_pos hw] at hfind
    have hwmem : (w, (matchWords (allCommentsOf st.feedback)).count w) ∈
        wordCount (matchWords (allCommentsOf st.feedback)) :=
      List.mem_of_find?_eq_some hfind
    have hsmem := hperm.mem_iff.mpr hwmem
    rw [← List.take_append_drop 10 (List.insertionSort countDesc
      (wordCount (matchWords (allCommentsOf st.feedback))))] at hsmem
    have hpw : List.Pairwise countDesc
        ((List.insertionSort countDesc
          (wordCount (matchWords (allCommentsOf st.feedback)))).take 10 ++
         (List.insertionSort countDesc
          (wordCount (matchWords (allCommentsOf st.feedback)))).drop 10) := by
      rw [List.take_append_drop]
      exact hsort
    rcases List.mem_append.mp hsmem with hin10 | hdrop
    · exact absurd rfl (hnotin _ hin10)
    · exact (List.pairwise_append.mp hpw).2.2 p hp _ hdrop

/-- Witness for C5: two concrete comments produce the expected counts
(`course` 2, `content` 2, `great` 1, `helps` 1), sorted by count. -/
theorem analytics_commonWords_spec_witness :
    ([("course", 2), ("content", 2), ("great", 1), ("helps", 1)] :
        List (String × Nat)).length ≤ 10 ∧
    ([("course", 2), ("content", 2), ("great", 1), ("helps", 1)] :
        List (String × Nat)).Sorted countDesc ∧
    (∀ p ∈ ([("course", 2), ("content", 2), ("great", 1), ("helps", 1)] :
        List (String × Nat)),
      p.1 ∈ matchWords (allCommentsOf (ServerState.mk
        [⟨"a", "general", some 5, "Great course content", "open", "", 1, "h1"⟩,
         ⟨"b", "general", some 4, "course content helps", "open", "", 2, "h2"⟩]
        initState.categories).feedback) ∧
      p.2 = (matchWords (allCommentsOf (ServerState.mk
        [⟨"a", "general", some 5, "Great course content", "open", "", 1, "h1"⟩,
         ⟨"b", "general", some 4, "course content helps", "open", "", 2, "h2"⟩]
        initState.categories).feedback)).count p.1) ∧
    (∀ w, w ∈ matchWords (allCommentsOf (ServerState.mk
        [⟨"a", "general", some 5, "Great course content", "open", "", 1, "h1"⟩,
         ⟨"b", "general", some 4, "course content helps", "open", "", 2, "h2"⟩]
        initState.categories).feedback) →
      (∀ p ∈ ([("course", 2), ("content", 2), ("great", 1), ("helps", 1)] :
          List (String × Nat)), p.1 ≠ w) →
      ∀ p ∈ ([("course", 2), ("content", 2), ("great", 1), ("helps", 1)] :
          List (String × Nat)),
        (matchWords (allCommentsOf (ServerState.mk
          [⟨"a", "general", some 5, "Great course content", "open", "", 1, "h1"⟩,
           ⟨"b", "general", some 4, "course content helps", "open", "", 2, "h2"⟩]
          initState.categories).feedback)).count w ≤ p.2) :=
  analytics_commonWords_spec
    (ServerState.mk
      [⟨"a", "general", some 5, "Great course content", "open", "", 1, "h1"⟩,
       ⟨"b", "general", some 4, "course content helps", "open", "", 2, "h2"⟩]
      initState.categories)
    [("course", 2), ("content", 2), ("great", 1), ("helps", 1)]
    rfl
